import Mathlib

/-! Shallow embedding of the airport-layout construction pipeline of
`src/Layout/Layout.py` (class `Layout`) and `src/Layout/_Layout_utilFuncs.py`,
with proofs about the node importer, the edge importer, the import validator,
the graph enhancer, the runway topology builder and the pushback/pull
assembler.  Python dicts are modelled as association lists (insertion order
preserved, assignment overwrites in place), Python sets of ids as `Finset`,
floats as `ℚ` (or `ℝ` where `math.sqrt` is involved), and code paths that
raise exceptions return `none`. -/

namespace ASOS

/-! ### Generic helpers: Python dict / string primitives -/

/-- Association-list lookup, modelling Python dict indexing `d[k]`. -/
def alookup {α β : Type} [DecidableEq α] : List (α × β) → α → Option β
  | [], _ => none
  | (k, v) :: rest, a => if k = a then some v else alookup rest a

/-- Python dict assignment `d[k] = v`: overwrite in place if the key exists,
otherwise append at the end. -/
def dictInsert {α β : Type} [DecidableEq α] : List (α × β) → α → β → List (α × β)
  | [], a, b => [(a, b)]
  | (k, v) :: rest, a, b => if k = a then (a, b) :: rest else (k, v) :: dictInsert rest a b

lemma alookup_dictInsert {α β : Type} [DecidableEq α]
    (d : List (α × β)) (a : α) (b : β) (x : α) :
    alookup (dictInsert d a b) x = if x = a then some b else alookup d x := by
  induction d with
  | nil =>
    by_cases hx : x = a
    · subst hx; simp [dictInsert, alookup]
    · simp [dictInsert, alookup, hx, Ne.symm hx]
  | cons p rest ih =>
    obtain ⟨k, v⟩ := p
    by_cases hk : k = a
    · subst hk
      by_cases hx : x = k
      · subst hx; simp [dictInsert, alookup]
      · simp [dictInsert, alookup, hx, Ne.symm hx]
    · by_cases hx : x = k
      · subst hx
        simp [dictInsert, hk, alookup]
      · simp [dictInsert, hk, alookup, hx, Ne.symm hx, ih]

lemma alookup_append {α β : Type} [DecidableEq α]
    (d e : List (α × β)) (x : α) :
    alookup (d ++ e) x = ((alookup d x).orElse (fun _ => alookup e x)) := by
  induction d with
  | nil => simp [alookup]
  | cons p rest ih =>
    obtain ⟨k, v⟩ := p
    by_cases hx : k = x <;> simp [alookup, hx, ih]

/-- Python `set.add` on a set modelled as a duplicate-free list. -/
def setInsert {α : Type} [DecidableEq α] (l : List α) (x : α) : List α :=
  if x ∈ l then l else l ++ [x]

/-- Python float modulo `x % y` for rationals (sign of the divisor). -/
def qmod (x y : ℚ) : ℚ := x - y * (⌊x / y⌋ : ℚ)

/-- Whether the character list `pat` occurs inside `l` (Python substring test). -/
def charsContain (pat : List Char) : List Char → Bool
  | [] => pat.isEmpty
  | c :: rest => pat.isPrefixOf (c :: rest) || charsContain pat rest

/-- Python `pat in s`, i.e. `s.find(pat) >= 0`. -/
def strContains (s pat : String) : Bool := charsContain pat.toList s.toList

/-- Index of the first occurrence of `pat` in `l`, Python `s.find(pat)`
(`none` where Python returns `-1`). -/
def charsFind (pat : List Char) : List Char → Option ℕ
  | [] => if pat.isEmpty then some 0 else none
  | c :: rest =>
    if pat.isPrefixOf (c :: rest) then some 0 else (charsFind pat rest).map (· + 1)

/-- Python `s.find(pat)` on strings. -/
def strFind (s pat : String) : Option ℕ := charsFind pat.toList s.toList

/-! ### Node importer (`Layout.import_nodes`, Layout.py lines 114-144)

Intersection elements `intersection_node_<i>` get node id `i`; after that pass
`self.node_count_intersections = len(self.nodes_dict.keys())`, the number of
distinct intersection indices; termination elements `termination_node_<j>` get
node id `j + node_count_intersections`. -/

/-- `len(self.nodes_dict.keys())` after the intersection pass: duplicate
indices overwrite each other in the dict, so this is the distinct count. -/
def node_count_intersections (inters : List ℕ) : ℕ := inters.dedup.length

/-- The sequence of node ids assigned by `import_nodes`, in assignment order:
each intersection element keeps its source index, each termination element is
offset by the intersection count. -/
def assigned_node_ids (inters terms : List ℕ) : List ℕ :=
  inters ++ terms.map (fun t => t + node_count_intersections inters)

/-- C4, counterexample.  The claim quantifies over every input document
("any set of intersection-element integer indices"): with intersection
indices `[0, 5]` the intersection count is `2`, so termination index `3`
is assigned node id `3 + 2 = 5`, colliding with intersection node id `5` —
the assigned ids are not pairwise distinct. -/
theorem import_nodes_ids_cex : ¬ (assigned_node_ids [0, 5] [3]).Nodup := by decide

/-- C4, amended.  When the intersection indices are pairwise distinct and
each is below the intersection count (as with the generator's sequential
0-based numbering) and the termination indices are pairwise distinct, the
assigned node ids are pairwise distinct, and no termination node id (source
index plus intersection count) equals any intersection node id. -/
theorem import_nodes_ids_partition (inters terms : List ℕ)
    (hI : inters.Nodup) (hIlt : ∀ i ∈ inters, i < inters.length)
    (hT : terms.Nodup) :
    (assigned_node_ids inters terms).Nodup ∧
      ∀ t ∈ terms, ∀ i ∈ inters, t + node_count_intersections inters ≠ i := by
  have hcount : node_count_intersections inters = inters.length := by
    unfold node_count_intersections
    rw [hI.dedup]
  have hdisj : ∀ t ∈ terms, ∀ i ∈ inters, t + node_count_intersections inters ≠ i := by
    intro t _ i hi
    have hlt := hIlt i hi
    omega
  refine ⟨?_, hdisj⟩
  unfold assigned_node_ids
  refine List.Nodup.append hI ?_ ?_
  · exact hT.map (fun a b h => by omega)
  · intro i hi hmem
    rcases List.mem_map.mp hmem with ⟨t, ht, hEq⟩
    exact hdisj t ht i hi hEq

/-- C4 witness: the amended theorem applied to the concrete document with
intersection indices `[0, 1]` and termination indices `[0, 5]`. -/
theorem import_nodes_ids_partition_witness :
    (assigned_node_ids [0, 1] [0, 5]).Nodup ∧
      0 + node_count_intersections [0, 1] ≠ (1 : ℕ) := by
  have h := import_nodes_ids_partition [0, 1] [0, 5]
    (by decide) (by decide) (by decide)
  exact ⟨h.1, h.2 0 (by decide) 1 (by decide)⟩

/-! ### Pushback/pull assembler (`Layout.create_pushpull_data`, lines 1056-1088)

A fragment pool is the list `self._svgEdges_pushback_dict[gate][sType]` of
directed edge keys; the chaining `while`-loop scans the pool in list order
for a fragment whose start node equals the chain's current endpoint, appends
it, removes it and its mirror from the pool and advances the endpoint. -/

/-- A directed edge key of the layout graph: start and end node id, where
`none` is Python `None` (an unresolved endpoint). -/
abbrev EdgeKey : Type := Option ℕ × Option ℕ

/-- First pool entry whose start node equals the chain's current endpoint:
the inner `for pot_pb_edge in pot_pb_edges` scan with its `break`. -/
def findNext (last : Option ℕ) : List EdgeKey → Option EdgeKey
  | [] => none
  | f :: rest => if f.1 = last then some f else findNext last rest

/-- Remove the first occurrence of a value from the pool, Python
`pool.pop(pool.index(v))`. -/
def eraseFrag : List EdgeKey → EdgeKey → List EdgeKey
  | [], _ => []
  | f :: rest, g => if f = g then rest else f :: eraseFrag rest g

/-- The chaining `while pot_pb_edges:` loop of `create_pushpull_data`, with
explicit fuel (each successful iteration removes the chosen fragment and its
mirror from the pool, so `pool.length` fuel suffices): scan for a fragment
starting at the current endpoint (`break` with chain finished when none
matches), append it to the chain, remove it and its mirror from the pool
(a missing mirror raises `ValueError` in `pool.index`, modelled as `none`),
and advance the endpoint. -/
def chainAux : ℕ → Option ℕ → List EdgeKey → Option (List EdgeKey)
  | 0, last, pool =>
    match findNext last pool with
    | none => some []
    | some _ => none
  | fuel + 1, last, pool =>
    match findNext last pool with
    | none => some []
    | some e =>
      let pool1 := eraseFrag pool e
      if (e.2, e.1) ∈ pool1 then
        match chainAux fuel e.2 (eraseFrag pool1 (e.2, e.1)) with
        | none => none
        | some rest => some (e :: rest)
      else none

/-- The chain assembled from a fragment pool, starting at endpoint `last`. -/
def constructChain (last : Option ℕ) (pool : List EdgeKey) : Option (List EdgeKey) :=
  chainAux pool.length last pool

/-- Assembly of the pushback path for one ramp and category (lines
1066-1086): `pb_path_lst` starts with the ramp's single outgoing stand edge
and the chain is built from the fragment pool, starting at the stand edge's
end node. -/
def assemble_pushback (standEdge : EdgeKey) (pool : List EdgeKey) : Option (List EdgeKey) :=
  match constructChain standEdge.2 pool with
  | none => none
  | some chain => some (standEdge :: chain)

lemma findNext_mem {last : Option ℕ} :
    ∀ {pool : List EdgeKey} {e : EdgeKey}, findNext last pool = some e → e ∈ pool := by
  intro pool
  induction pool with
  | nil => intro e h; simp [findNext] at h
  | cons f rest ih =>
    intro e h
    by_cases hf : f.1 = last
    · simp [findNext, hf] at h
      simp [h]
    · simp [findNext, hf] at h
      exact List.mem_cons_of_mem _ (ih h)

lemma eraseFrag_subset {g : EdgeKey} :
    ∀ {pool : List EdgeKey} {x : EdgeKey}, x ∈ eraseFrag pool g → x ∈ pool := by
  intro pool
  induction pool with
  | nil => intro x h; simp [eraseFrag] at h
  | cons f rest ih =>
    intro x h
    by_cases hf : f = g
    · simp [eraseFrag, hf] at h
      exact List.mem_cons_of_mem _ h
    · simp [eraseFrag, hf] at h
      rcases h with h | h
      · simp [h]
      · exact List.mem_cons_of_mem _ (ih h)

lemma eraseFrag_length {g : EdgeKey} :
    ∀ {pool : List EdgeKey}, g ∈ pool → (eraseFrag pool g).length + 1 = pool.length := by
  intro pool
  induction pool with
  | nil => intro h; simp at h
  | cons f rest ih =>
    intro h
    by_cases hf : f = g
    · simp [eraseFrag, hf]
    · have hg : g ∈ rest := by
        rcases List.mem_cons.mp h with h1 | h1
        · exact absurd h1.symm hf
        · exact h1
      simp [eraseFrag, hf, ih hg]

lemma eraseFrag_nodup {g : EdgeKey} :
    ∀ {pool : List EdgeKey}, pool.Nodup → (eraseFrag pool g).Nodup := by
  intro pool
  induction pool with
  | nil => intro _; simp [eraseFrag]
  | cons f rest ih =>
    intro h
    by_cases hf : f = g
    · simpa [eraseFrag, hf] using h.of_cons
    · simp only [eraseFrag, if_neg hf]
      refine List.nodup_cons.mpr ⟨?_, ih h.of_cons⟩
      intro hmem
      exact (List.nodup_cons.mp h).1 (eraseFrag_subset hmem)

lemma not_mem_eraseFrag {g : EdgeKey} :
    ∀ {pool : List EdgeKey}, pool.Nodup → g ∉ eraseFrag pool g := by
  intro pool
  induction pool with
  | nil => intro _; simp [eraseFrag]
  | cons f rest ih =>
    intro h
    by_cases hf : f = g
    · subst hf
      simpa [eraseFrag] using (List.nodup_cons.mp h).1
    · simp only [eraseFrag, if_neg hf, List.mem_cons]
      rintro (h1 | h1)
      · exact hf h1.symm
      · exact ih (List.nodup_cons.mp h).2 h1

lemma chainAux_nil (fuel : ℕ) (last : Option ℕ) : chainAux fuel last [] = some [] := by
  cases fuel <;> simp [chainAux, findNext]

/-- The chaining loop stabilizes once the fuel reaches the pool size: more
fuel never changes the result (termination of the source loop). -/
lemma chainAux_stable :
    ∀ (f1 : ℕ) (last : Option ℕ) (pool : List EdgeKey) (f2 : ℕ),
      pool.length ≤ f1 → pool.length ≤ f2 →
      chainAux f1 last pool = chainAux f2 last pool := by
  intro f1
  induction f1 with
  | zero =>
    intro last pool f2 h1 _
    have : pool = [] := List.length_eq_zero.mp (Nat.le_zero.mp h1)
    subst this
    simp [chainAux_nil]
  | succ f ih =>
    intro last pool f2 h1 h2
    cases hfind : findNext last pool with
    | none =>
      cases f2 <;> simp [chainAux, hfind]
    | some e =>
      have he : e ∈ pool := findNext_mem hfind
      by_cases hrev : (e.2, e.1) ∈ eraseFrag pool e
      · have hlen1 : (eraseFrag pool e).length + 1 = pool.length := eraseFrag_length he
        have hlen2 : (eraseFrag (eraseFrag pool e) (e.2, e.1)).length + 1 =
            (eraseFrag pool e).length := eraseFrag_length hrev
        have hple : 2 ≤ pool.length := by omega
        obtain ⟨g, rfl⟩ : ∃ g, f2 = g + 1 := ⟨f2 - 1, by omega⟩
        have hrec := ih e.2 (eraseFrag (eraseFrag pool e) (e.2, e.1)) g
          (by omega) (by omega)
        simp only [chainAux, hfind, if_pos hrev, hrec]
      · cases f2 with
        | zero =>
          have hnil : pool = [] := List.length_eq_zero.mp (Nat.le_zero.mp h2)
          subst hnil
          simp [findNext] at hfind
        | succ g => simp only [chainAux, hfind, if_neg hrev]

/-- Structural facts about a successfully assembled chain: every chain
fragment comes from the pool, the chain is no longer than the pool, and a
duplicate-free pool yields a duplicate-free chain (no fragment appended
twice). -/
lemma chainAux_spec :
    ∀ (fuel : ℕ) (last : Option ℕ) (pool : List EdgeKey) (r : List EdgeKey),
      chainAux fuel last pool = some r →
      (∀ x ∈ r, x ∈ pool) ∧ r.length ≤ pool.length ∧ (pool.Nodup → r.Nodup) := by
  intro fuel
  induction fuel with
  | zero =>
    intro last pool r h
    cases hfind : findNext last pool <;> simp [chainAux, hfind] at h
    subst h
    simp
  | succ f ih =>
    intro last pool r h
    cases hfind : findNext last pool with
    | none =>
      simp [chainAux, hfind] at h
      subst h
      simp
    | some e =>
      have he : e ∈ pool := findNext_mem hfind
      by_cases hrev : (e.2, e.1) ∈ eraseFrag pool e
      · simp only [chainAux, hfind, if_pos hrev] at h
        cases hrec : chainAux f e.2 (eraseFrag (eraseFrag pool e) (e.2, e.1)) with
        | none => simp [hrec] at h
        | some rest =>
          simp [hrec] at h
          subst h
          obtain ⟨hsub, hlen, hnd⟩ := ih e.2 _ rest hrec
          have hlen1 : (eraseFrag pool e).length + 1 = pool.length := eraseFrag_length he
          have hlen2 : (eraseFrag (eraseFrag pool e) (e.2, e.1)).length + 1 =
              (eraseFrag pool e).length := eraseFrag_length hrev
          refine ⟨?_, by simp; omega, ?_⟩
          · intro x hx
            rcases List.mem_cons.mp hx with hx | hx
            · simpa [hx] using he
            · exact eraseFrag_subset (eraseFrag_subset (hsub x hx))
          · intro hndpool
            refine List.nodup_cons.mpr ⟨?_, hnd (eraseFrag_nodup (eraseFrag_nodup hndpool))⟩
            intro hmem
            exact not_mem_eraseFrag hndpool (eraseFrag_subset (hsub e hmem))
      · simp [chainAux, hfind, if_neg hrev] at h

/-- C8, amended.  Pushback-chain assembly terminates (the loop's result is
stable for any fuel at least the pool size) and, on success, the assembled
chain contains at most N fragments for a pool of N, every appended fragment
is drawn from the pool, and for a duplicate-free pool no fragment is ever
appended twice.  The chain is, however, a function of the *ordered* pool
list, not of its unordered contents: permuting a pool in which two fragments
leave the same node can change the result (see the counterexample). -/
theorem pushpull_chain_amended (last : Option ℕ) (pool : List EdgeKey) :
    (∀ fuel, pool.length ≤ fuel → chainAux fuel last pool = constructChain last pool) ∧
      ∀ r, constructChain last pool = some r →
        r.length ≤ pool.length ∧ (∀ x ∈ r, x ∈ pool) ∧ (pool.Nodup → r.Nodup) := by
  constructor
  · intro fuel hfuel
    exact chainAux_stable fuel last pool pool.length hfuel le_rfl
  · intro r h
    obtain ⟨hsub, hlen, hnd⟩ := chainAux_spec pool.length last pool r h
    exact ⟨hlen, hsub, hnd⟩

/-- C8 witness: the amended theorem applied at the concrete pool
`[(12,15),(15,12)]` with current endpoint `12` and fuel `5`. -/
theorem pushpull_chain_amended_witness :
    chainAux 5 (some 12) [((some 12 : Option ℕ), some 15), (some 15, some 12)] =
        constructChain (some 12) [((some 12 : Option ℕ), some 15), (some 15, some 12)] ∧
      ([((some 12 : Option ℕ), some 15)] : List EdgeKey).length ≤
        ([((some 12 : Option ℕ), some 15), (some 15, some 12)] : List EdgeKey).length := by
  have h := pushpull_chain_amended (some 12)
    [((some 12 : Option ℕ), some 15), (some 15, some 12)]
  exact ⟨h.1 5 (by decide), (h.2 [((some 12 : Option ℕ), some 15)] (by decide)).1⟩

/-- C8, counterexample.  The claim that the resulting chain depends only on
the unordered set of fragments fails: the two pools below hold the same
fragments (they are permutations of each other) but, starting from endpoint
`12`, the first chains to `[(12,15)]` and the second to `[(12,18)]`. -/
theorem pushpull_chain_order_cex :
    ([((some 12 : Option ℕ), some 15), (some 15, some 12),
        (some 12, some 18), (some 18, some 12)] : List EdgeKey).Perm
      [((some 12 : Option ℕ), some 18), (some 18, some 12),
        (some 12, some 15), (some 15, some 12)] ∧
    constructChain (some 12)
        [((some 12 : Option ℕ), some 15), (some 15, some 12),
          (some 12, some 18), (some 18, some 12)] ≠
      constructChain (some 12)
        [((some 12 : Option ℕ), some 18), (some 18, some 12),
          (some 12, some 15), (some 15, some 12)] := by
  constructor
  · decide
  · decide

/-- C2, counterexample.  The assembled path stored for the ramp and category
is `pb_path_lst`, which starts with the ramp's outgoing stand edge (line
1067) before the chained fragments, so for a stand edge `(7, 12)` the
produced list is `[(7,12), (12,15), (15,20)]`, not exactly
`[(12,15), (15,20)]` as the claim states. -/
theorem pushback_scenario_cex :
    assemble_pushback ((some 7 : Option ℕ), some 12)
        [(some 12, some 15), (some 15, some 12), (some 15, some 20), (some 20, some 15)] ≠
      some [((some 12 : Option ℕ), some 15), (some 15, some 20)] := by decide

lemma findNext_unique {last : Option ℕ} {e : EdgeKey} :
    ∀ {pool : List EdgeKey}, e ∈ pool → e.1 = last →
      (∀ x ∈ pool, x.1 = last → x = e) → findNext last pool = some e := by
  intro pool
  induction pool with
  | nil => intro h; simp at h
  | cons f rest ih =>
    intro hmem hfst huniq
    by_cases hf : f.1 = last
    · have hfe : f = e := huniq f (List.mem_cons_self _ _) hf
      simp only [findNext]
      rw [if_pos hf, hfe]
    · have hrest : e ∈ rest := by
        rcases List.mem_cons.mp hmem with h1 | h1
        · exact absurd (h1 ▸ hfst) hf
        · exact h1
      simp only [findNext, if_neg hf]
      exact ih hrest hfst (fun x hx => huniq x (List.mem_cons_of_mem _ hx))

lemma mem_eraseFrag_of_ne {g x : EdgeKey} :
    ∀ {pool : List EdgeKey}, x ∈ pool → x ≠ g → x ∈ eraseFrag pool g := by
  intro pool
  induction pool with
  | nil => intro h; simp at h
  | cons f rest ih =>
    intro hmem hne
    by_cases hf : f = g
    · rcases List.mem_cons.mp hmem with h1 | h1
      · exact absurd (h1.trans hf) hne
      · simpa [eraseFrag, hf] using h1
    · rcases List.mem_cons.mp hmem with h1 | h1
      · simp [eraseFrag, hf, h1]
      · simp [eraseFrag, hf, ih h1 hne]

lemma eraseFrag_eq_erase (pool : List EdgeKey) (g : EdgeKey) :
    eraseFrag pool g = pool.erase g := by
  induction pool with
  | nil => simp [eraseFrag]
  | cons f rest ih =>
    simp only [eraseFrag, List.erase_cons, beq_iff_eq]
    by_cases hf : f = g <;> simp [hf, ih]

lemma eraseFrag_perm (g : EdgeKey) {p q : List EdgeKey} (hpq : p.Perm q) :
    (eraseFrag p g).Perm (eraseFrag q g) := by
  induction hpq with
  | nil => simp [eraseFrag]
  | @cons x l1 l2 h ih =>
    by_cases hx : x = g
    · simpa [eraseFrag, hx] using h
    · simpa [eraseFrag, hx] using ih.cons x
  | swap x y l =>
    simp only [eraseFrag]
    by_cases hy : y = g
    · by_cases hx : x = g
      · simp only [if_pos hy, if_pos hx, hx, hy]
        exact List.Perm.refl _
      · simp only [if_pos hy, if_neg hx]
        exact List.Perm.refl _
    · by_cases hx : x = g
      · simp only [if_neg hy, if_pos hx]
        exact List.Perm.refl _
      · simp only [if_neg hy, if_neg hx]
        exact List.Perm.swap x y _
  | trans h1 h2 ih1 ih2 => exact ih1.trans ih2

/-- One successful iteration of the chaining loop, as an equation. -/
lemma chainAux_step {f : ℕ} {last : Option ℕ} {pool : List EdgeKey} {e : EdgeKey}
    (hfind : findNext last pool = some e)
    (hrev : (e.2, e.1) ∈ eraseFrag pool e) :
    chainAux (f + 1) last pool =
      (chainAux f e.2 (eraseFrag (eraseFrag pool e) (e.2, e.1))).map (e :: ·) := by
  simp only [chainAux, hfind, if_pos hrev]
  cases chainAux f e.2 (eraseFrag (eraseFrag pool e) (e.2, e.1)) <;> simp

lemma constructChain_scenario_pool (pool : List EdgeKey)
    (hperm : pool.Perm [((some 12 : Option ℕ), some 15), (some 15, some 12),
      (some 15, some 20), (some 20, some 15)]) :
    constructChain (some 12) pool =
      some [((some 12 : Option ℕ), some 15), (some 15, some 20)] := by
  have hlen : pool.length = 4 := by rw [hperm.length_eq]; rfl
  have hm1 : ((some 12 : Option ℕ), some 15) ∈ pool := hperm.mem_iff.mpr (by simp)
  have hfind1 : findNext (some 12) pool = some ((some 12 : Option ℕ), some 15) := by
    refine findNext_unique hm1 rfl ?_
    intro x hx hfst
    have hx0 := hperm.subset hx
    simp only [List.mem_cons, List.not_mem_nil, or_false] at hx0
    rcases hx0 with rfl | rfl | rfl | rfl <;> first | rfl | simp at hfst
  have hperm1 : (eraseFrag pool ((some 12 : Option ℕ), some 15)).Perm
      [((some 15 : Option ℕ), some 12), (some 15, some 20), (some 20, some 15)] := by
    have h := eraseFrag_perm ((some 12 : Option ℕ), some 15) hperm
    simpa [eraseFrag] using h
  have hrev1 : ((some 15 : Option ℕ), some 12) ∈ eraseFrag pool ((some 12 : Option ℕ), some 15) :=
    hperm1.mem_iff.mpr (by simp)
  have hperm2 : (eraseFrag (eraseFrag pool ((some 12 : Option ℕ), some 15))
      ((some 15 : Option ℕ), some 12)).Perm
      [((some 15 : Option ℕ), some 20), (some 20, some 15)] := by
    have h := eraseFrag_perm ((some 15 : Option ℕ), some 12) hperm1
    simpa [eraseFrag] using h
  have hm2 : ((some 15 : Option ℕ), some 20) ∈
      eraseFrag (eraseFrag pool ((some 12 : Option ℕ), some 15)) ((some 15 : Option ℕ), some 12) :=
    hperm2.mem_iff.mpr (by simp)
  have hfind2 : findNext (some 15) (eraseFrag (eraseFrag pool ((some 12 : Option ℕ), some 15))
      ((some 15 : Option ℕ), some 12)) = some ((some 15 : Option ℕ), some 20) := by
    refine findNext_unique hm2 rfl ?_
    intro x hx hfst
    have hx0 := hperm2.subset hx
    simp only [List.mem_cons, List.not_mem_nil, or_false] at hx0
    rcases hx0 with rfl | rfl <;> first | rfl | simp at hfst
  have hperm3 : (eraseFrag (eraseFrag (eraseFrag pool ((some 12 : Option ℕ), some 15))
      ((some 15 : Option ℕ), some 12)) ((some 15 : Option ℕ), some 20)).Perm
      [((some 20 : Option ℕ), some 15)] := by
    have h := eraseFrag_perm ((some 15 : Option ℕ), some 20) hperm2
    simpa [eraseFrag] using h
  have hrev2 : ((some 20 : Option ℕ), some 15) ∈
      eraseFrag (eraseFrag (eraseFrag pool ((some 12 : Option ℕ), some 15))
        ((some 15 : Option ℕ), some 12)) ((some 15 : Option ℕ), some 20) :=
    hperm3.mem_iff.mpr (by simp)
  have hperm4 : (eraseFrag (eraseFrag (eraseFrag (eraseFrag pool
      ((some 12 : Option ℕ), some 15)) ((some 15 : Option ℕ), some 12))
      ((some 15 : Option ℕ), some 20)) ((some 20 : Option ℕ), some 15)).Perm ([] : List EdgeKey) := by
    have h := eraseFrag_perm ((some 20 : Option ℕ), some 15) hperm3
    simpa [eraseFrag] using h
  have hnil := hperm4.eq_nil
  unfold constructChain
  rw [hlen, show (4 : ℕ) = 3 + 1 from rfl, chainAux_step hfind1 hrev1,
    show (3 : ℕ) = 2 + 1 from rfl, chainAux_step hfind2 hrev2, hnil, chainAux_nil]
  rfl

/-- C2, amended.  For a ramp whose single outgoing stand edge ends at node
12, and any ordering of the Standard-category push fragment pool
`{(12,15),(15,12),(15,20),(20,15)}`, the assembler produces the path
consisting of the stand edge followed by exactly the ordered chain
`[(12,15),(15,20)]`. -/
theorem pushback_scenario_amended (standEdge : EdgeKey) (pool : List EdgeKey)
    (hstand : standEdge.2 = some 12)
    (hpool : pool.Perm [((some 12 : Option ℕ), some 15), (some 15, some 12),
      (some 15, some 20), (some 20, some 15)]) :
    assemble_pushback standEdge pool =
      some (standEdge :: [((some 12 : Option ℕ), some 15), (some 15, some 20)]) := by
  have h := constructChain_scenario_pool pool hpool
  unfold assemble_pushback
  rw [hstand, h]

/-- C2 witness: the amended theorem at the stand edge `(7, 12)` and the pool
in its registration order. -/
theorem pushback_scenario_amended_witness :
    assemble_pushback ((some 7 : Option ℕ), some 12)
        [(some 12, some 15), (some 15, some 12), (some 15, some 20), (some 20, some 15)] =
      some [((some 7 : Option ℕ), some 12), (some 12, some 15), (some 15, some 20)] :=
  pushback_scenario_amended ((some 7 : Option ℕ), some 12)
    [(some 12, some 15), (some 15, some 12), (some 15, some 20), (some 20, some 15)]
    rfl (by decide)

/-! ### Import validator (`Layout.check_imports`, lines 694-706) and
`calc_euclidean_dist` (`_Layout_utilFuncs.py`, lines 25-42) -/

/-- `calc_euclidean_dist`: Euclidean distance between two planar positions,
multiplied by 6 (the SVG drawing is downscaled to 1/6th, so the factor
returns the distance in meters). -/
noncomputable def calc_euclidean_dist (p1_xy p2_xy : ℚ × ℚ) : ℝ :=
  Real.sqrt (((p1_xy.1 : ℝ) - (p2_xy.1 : ℝ)) ^ 2 + ((p1_xy.2 : ℝ) - (p2_xy.2 : ℝ)) ^ 2) * 6

open Classical in
/-- Inner scan of the near-duplicate check: one node against the key list
from its own index on; equal ids are skipped, and when the distance is
below 1 m both ids are flagged. -/
noncomputable def nodesCheckInner (x : ℕ × ℚ × ℚ) : List (ℕ × ℚ × ℚ) → Finset ℕ
  | [] => ∅
  | y :: rest =>
    (if x.1 = y.1 then ∅
     else if calc_euclidean_dist x.2 y.2 < 1 then {x.1, y.1} else ∅) ∪
      nodesCheckInner x rest

/-- The `nodes_to_check` set of `check_imports`: for each index `idx` the
node is compared against `list(self.nodes_dict.keys())[idx:]`. -/
noncomputable def nodes_to_check : List (ℕ × ℚ × ℚ) → Finset ℕ
  | [] => ∅
  | x :: rest => nodesCheckInner x (x :: rest) ∪ nodes_to_check rest

lemma dist_scenario_eq_three :
    calc_euclidean_dist (100, 50) (502/5, 503/10) = 3 := by
  unfold calc_euclidean_dist
  have h1 : (((100 : ℚ) : ℝ) - (((502 : ℚ)/5 : ℚ) : ℝ)) ^ 2 +
      (((50 : ℚ) : ℝ) - (((503 : ℚ)/10 : ℚ) : ℝ)) ^ 2 = ((1 : ℝ)/2) ^ 2 := by
    push_cast
    norm_num
  rw [h1, Real.sqrt_sq (by norm_num)]
  norm_num

lemma dist_amended_lt_one :
    calc_euclidean_dist (100, 50) (2502/25, 2503/50) < 1 := by
  unfold calc_euclidean_dist
  have h1 : (((100 : ℚ) : ℝ) - (((2502 : ℚ)/25 : ℚ) : ℝ)) ^ 2 +
      (((50 : ℚ) : ℝ) - (((2503 : ℚ)/50 : ℚ) : ℝ)) ^ 2 = ((1 : ℝ)/10) ^ 2 := by
    push_cast
    norm_num
  rw [h1, Real.sqrt_sq (by norm_num)]
  norm_num

/-- C3, counterexample.  The two nodes of the claimed scenario sit at local
positions `(100.0, 50.0)` and `(100.4, 50.3)` — `502/5` and `503/10` — whose
Euclidean distance after the drawing-unit-to-meter scaling (factor 6) is
`sqrt(0.25) * 6 = 3` meters, which is not below the 1 m threshold, so
neither node is flagged by the pairwise scan. -/
theorem check_1m_scenario_cex :
    (1 : ℕ) ∉ nodes_to_check [(1, ((100 : ℚ), (50 : ℚ))), (2, (502/5, 503/10))] ∧
      (2 : ℕ) ∉ nodes_to_check [(1, ((100 : ℚ), (50 : ℚ))), (2, (502/5, 503/10))] := by
  have hd : ¬ (calc_euclidean_dist ((100 : ℚ), (50 : ℚ)) (502/5, 503/10) < 1) := by
    rw [dist_scenario_eq_three]
    norm_num
  constructor <;> simp [nodes_to_check, nodesCheckInner, hd]

/-- C3, amended.  The 1 m threshold applies to the distance *after* the ×6
scaling: the scenario pair is 3 m apart and is not flagged, while a pair
that really is closer than 1 m — `(100.0, 50.0)` and `(100.08, 50.06)`,
0.6 m apart — does have both of its nodes in the flagged set. -/
theorem check_1m_amended :
    (1 : ℕ) ∈ nodes_to_check [(1, ((100 : ℚ), (50 : ℚ))), (2, (2502/25, 2503/50))] ∧
      (2 : ℕ) ∈ nodes_to_check [(1, ((100 : ℚ), (50 : ℚ))), (2, (2502/25, 2503/50))] := by
  have hd : calc_euclidean_dist ((100 : ℚ), (50 : ℚ)) (2502/25, 2503/50) < 1 :=
    dist_amended_lt_one
  constructor <;> simp [nodes_to_check, nodesCheckInner, hd]

/-! ### Graph enhancer (`Layout.enhance_imports`, lines 762-838) -/

/-- The edge attributes read by the graph enhancer: the start/end heading
pair `edge['heading']` and the role string `edge['edge_type']`. -/
structure HEdge where
  heading : ℚ × ℚ
  edge_type : String
deriving DecidableEq

/-- `node['edges_from_node']` as filled by the adjacency pass (lines
767-777): exactly the directed keys of the registry whose start component is
the given node (an edge with an open start contributes nothing; an edge with
an open end still leaves its start node). -/
def edgesFromNode (keys : List EdgeKey) (n : ℕ) : List EdgeKey :=
  keys.filter (fun k => k.1 = some n)

/-- The enhancer's turn angle between the current edge end heading `a` and a
candidate start heading `b`: `min((a-b) % 360, (b-a) % 360)` (line 820). -/
def headingDiff (a b : ℚ) : ℚ := min (qmod (a - b) 360) (qmod (b - a) 360)

/-- `next_edges` computed for one edge (lines 809-824): every edge departing
the end node, except the direct reverse of the current edge and except
candidates whose turn angle is 135° or more; an edge without a resolved end
node keeps an empty continuation set. -/
def next_edges_of (edges : List (EdgeKey × HEdge)) (k : EdgeKey) (rec : HEdge) :
    List EdgeKey :=
  match k.2 with
  | none => []
  | some nEnd =>
    (edgesFromNode (edges.map Prod.fst) nEnd).filter (fun c =>
      if c = ((k.2, k.1) : EdgeKey) then false
      else
        match alookup edges c with
        | none => false
        | some cr => decide (headingDiff rec.heading.2 cr.heading.1 < 135))

/-- `next_edges_isSlowTurn` for one edge (line 823): each accepted
continuation is tagged with `heading_diff > 30`. -/
def next_edges_isSlowTurn_of (edges : List (EdgeKey × HEdge)) (k : EdgeKey) (rec : HEdge) :
    List (EdgeKey × Bool) :=
  (next_edges_of edges k rec).map (fun c =>
    (c, match alookup edges c with
        | none => false
        | some cr => decide (30 < headingDiff rec.heading.2 cr.heading.1)))

lemma alookup_map_self {α β : Type} [DecidableEq α] (l : List α) (f : α → β) (x : α) :
    alookup (l.map (fun c => (c, f c))) x = if x ∈ l then some (f x) else none := by
  induction l with
  | nil => simp [alookup]
  | cons c rest ih =>
    by_cases hx : c = x
    · subst hx
      simp [alookup]
    · simp [alookup, hx, Ne.symm hx, ih]

/-- C6.  A candidate edge departing the resolved end node of an edge is
recorded as a valid continuation iff it is not the direct reverse of the
edge and the turn angle `min((endH - candStartH) % 360, (candStartH - endH)
% 360)` is strictly below 135; and a candidate is tagged slow-turn exactly
when it is an accepted continuation whose turn angle exceeds 30. -/
theorem next_edges_spec (edges : List (EdgeKey × HEdge)) (k : EdgeKey) (rec : HEdge)
    (nEnd : ℕ) (hEnd : k.2 = some nEnd)
    (c : EdgeKey) (hc : c ∈ edgesFromNode (edges.map Prod.fst) nEnd)
    (cr : HEdge) (hcr : alookup edges c = some cr) :
    (c ∈ next_edges_of edges k rec ↔
      (c ≠ (k.2, k.1) ∧ headingDiff rec.heading.2 cr.heading.1 < 135)) ∧
    (alookup (next_edges_isSlowTurn_of edges k rec) c = some true ↔
      (c ∈ next_edges_of edges k rec ∧ 30 < headingDiff rec.heading.2 cr.heading.1)) := by
  obtain ⟨k1, k2⟩ := k
  simp only at hEnd
  subst hEnd
  constructor
  · simp only [next_edges_of, List.mem_filter, hc, true_and]
    by_cases hrev : c = ((some nEnd, k1) : EdgeKey)
    · simp [hrev]
    · simp [hrev, hcr]
  · rw [next_edges_isSlowTurn_of, alookup_map_self]
    by_cases hmem : c ∈ next_edges_of edges (k1, some nEnd) rec
    · simp [hmem, hcr]
    · simp [hmem]

/-- The edge registry of the C6 scenario: an edge `(1,2)` whose end heading
is 350°, a candidate continuation `(2,3)` starting at 10°, and the reverse
edge `(2,1)`. -/
def slowTurnExampleEdges : List (EdgeKey × HEdge) :=
  [((some 1, some 2), ⟨(170, 350), "TWY_edge"⟩),
   ((some 2, some 3), ⟨(10, 10), "TWY_edge"⟩),
   ((some 2, some 1), ⟨(170, 170), "TWY_edge"⟩)]

/-- C6 witness: for end heading 350° and candidate start heading 10° the
turn angle is 20°, so the continuation `(2,3)` is accepted and is not
tagged slow-turn. -/
theorem next_edges_spec_witness :
    headingDiff 350 10 = 20 ∧
      ((some 2 : Option ℕ), some 3) ∈
        next_edges_of slowTurnExampleEdges (some 1, some 2) ⟨(170, 350), "TWY_edge"⟩ ∧
      ¬ (alookup (next_edges_isSlowTurn_of slowTurnExampleEdges
            (some 1, some 2) ⟨(170, 350), "TWY_edge"⟩)
          ((some 2 : Option ℕ), some 3) = some true) := by
  have h := next_edges_spec slowTurnExampleEdges (some 1, some 2) ⟨(170, 350), "TWY_edge"⟩
    2 rfl ((some 2 : Option ℕ), some 3) (by decide)
    ⟨(10, 10), "TWY_edge"⟩ (by with_unfolding_all decide)
  refine ⟨by with_unfolding_all decide,
    h.1.mpr ⟨by decide, by with_unfolding_all decide⟩, ?_⟩
  intro hmem
  have h30 := (h.2.mp hmem).2
  revert h30
  with_unfolding_all decide

/-- The node attributes read and written by the enhancer and the runway
topology builder. -/
structure RNode where
  node_type : String
  node_name : Option String
deriving DecidableEq

/-- The `cond` loop of the service-road reclassification (lines 797-802):
walk the outgoing edges and break with `False` at the first edge whose role
string does not contain `'ServiceRoad'`; a missing registry entry is a
`KeyError`. -/
def allSRCheck (edges : List (EdgeKey × HEdge)) : List EdgeKey → Option Bool
  | [] => some true
  | e :: rest =>
    match alookup edges e with
    | none => none
    | some er =>
      if strContains er.edge_type "ServiceRoad" then allSRCheck edges rest else some false

/-- Reclassification of a single node (lines 793-805): a node that is not a
`TWY_intersection` is left untouched; a `TWY_intersection` becomes an
`SR_intersection` when every outgoing edge has a role containing
`'ServiceRoad'` (vacuously when it has no outgoing edge). -/
def reclassifyNode (edges : List (EdgeKey × HEdge)) (p : ℕ × RNode) : Option (ℕ × RNode) :=
  if p.2.node_type ≠ "TWY_intersection" then some p
  else
    match allSRCheck edges (edgesFromNode (edges.map Prod.fst) p.1) with
    | none => none
    | some cond =>
      some (if cond then (p.1, { p.2 with node_type := "SR_intersection" }) else p)

/-- The reclassification pass over the node registry. -/
def reclassify_nodes (edges : List (EdgeKey × HEdge)) :
    List (ℕ × RNode) → Option (List (ℕ × RNode))
  | [] => some []
  | p :: rest =>
    match reclassifyNode edges p with
    | none => none
    | some q =>
      match reclassify_nodes edges rest with
      | none => none
      | some qs => some (q :: qs)

lemma allSRCheck_of_CSR (edges : List (EdgeKey × HEdge)) :
    ∀ l : List EdgeKey,
      (∀ e ∈ l, ∃ er, alookup edges e = some er ∧ er.edge_type = "CenterServiceRoad") →
      allSRCheck edges l = some true := by
  intro l
  induction l with
  | nil => intro _; rfl
  | cons e rest ih =>
    intro h
    obtain ⟨er, her, hty⟩ := h e (List.mem_cons_self _ _)
    have hsr : strContains er.edge_type "ServiceRoad" = true := by
      rw [hty]
      decide
    simp only [allSRCheck, her, hsr, if_true]
    exact ih (fun x hx => h x (List.mem_cons_of_mem _ hx))

/-- C9.  The enhancer's reclassification step: on the full pass every node is
processed independently, and for a single node — a `TaxiwayIntersection`
(`TWY_intersection`) with no outgoing edges is reclassified to
`ServiceRoadIntersection` (`SR_intersection`); one whose outgoing edges are
all of role `CenterServiceRoad` is likewise reclassified; a node of any
other subtype is never changed. -/
theorem reclassify_nodes_spec (edges : List (EdgeKey × HEdge)) :
    (∀ nodes out, reclassify_nodes edges nodes = some out →
      List.Forall₂ (fun p q => reclassifyNode edges p = some q) nodes out) ∧
    ∀ p q, reclassifyNode edges p = some q →
      q.1 = p.1 ∧
      (p.2.node_type ≠ "TWY_intersection" → q = p) ∧
      (p.2.node_type = "TWY_intersection" →
        edgesFromNode (edges.map Prod.fst) p.1 = [] →
        q.2.node_type = "SR_intersection") ∧
      (p.2.node_type = "TWY_intersection" →
        (∀ e ∈ edgesFromNode (edges.map Prod.fst) p.1,
          ∃ er, alookup edges e = some er ∧ er.edge_type = "CenterServiceRoad") →
        q.2.node_type = "SR_intersection") := by
  constructor
  · intro nodes
    induction nodes with
    | nil =>
      intro out h
      simp only [reclassify_nodes] at h
      rw [← Option.some_inj.mp h]
      exact List.Forall₂.nil
    | cons p rest ih =>
      intro out h
      simp only [reclassify_nodes] at h
      cases hq : reclassifyNode edges p with
      | none => rw [hq] at h; exact absurd h (by simp)
      | some q =>
        rw [hq] at h
        cases hrest : reclassify_nodes edges rest with
        | none => rw [hrest] at h; exact absurd h (by simp)
        | some qs =>
          rw [hrest] at h
          rw [← Option.some_inj.mp h]
          exact List.Forall₂.cons hq (ih qs hrest)
  · intro p q hq
    by_cases hty : p.2.node_type = "TWY_intersection"
    · simp only [reclassifyNode, hty, ne_eq, not_true_eq_false, if_false] at hq
      cases hcheck : allSRCheck edges (edgesFromNode (edges.map Prod.fst) p.1) with
      | none => rw [hcheck] at hq; exact absurd hq (by simp)
      | some cond =>
        rw [hcheck] at hq
        have hqeq := Option.some_inj.mp hq
        refine ⟨?_, fun hne => absurd hty hne, ?_, ?_⟩
        · rw [← hqeq]
          by_cases hcond : cond = true <;> simp [hcond]
        · intro _ hempty
          rw [hempty] at hcheck
          have hcond : cond = true := by
            have h0 : (some true : Option Bool) = some cond := by
              rw [← hcheck]; rfl
            exact (Option.some_inj.mp h0).symm
          rw [← hqeq, hcond]
          simp
        · intro _ hcsr
          have hT := allSRCheck_of_CSR edges _ hcsr
          rw [hT] at hcheck
          have hcond : cond = true := (Option.some_inj.mp hcheck).symm
          rw [← hqeq, hcond]
          simp
    · simp only [reclassifyNode, hty, ne_eq, not_false_eq_true, if_true] at hq
      have hqeq := Option.some_inj.mp hq
      exact ⟨by rw [← hqeq], fun _ => hqeq.symm ▸ rfl, fun h => absurd h hty,
        fun h => absurd h hty⟩

/-- Edge registry for the C9 witness: a center-service-road edge from node 5
to node 6 and its mirror; nodes 7 and 8 have no outgoing edges. -/
def csrExampleEdges : List (EdgeKey × HEdge) :=
  [((some 5, some 6), ⟨(0, 0), "CenterServiceRoad"⟩),
   ((some 6, some 5), ⟨(180, 180), "CenterServiceRoad"⟩)]

/-- C9 witness: a `TWY_intersection` with no outgoing edges (node 7) is
reclassified to `SR_intersection`; a `TWY_intersection` whose outgoing edges
are all `CenterServiceRoad` (node 5) is reclassified; a `Ramp` node (node 8)
is unchanged. -/
theorem reclassify_nodes_spec_witness :
    (∃ q, reclassifyNode csrExampleEdges (7, ⟨"TWY_intersection", none⟩) = some q ∧
      q.2.node_type = "SR_intersection") ∧
    (∃ q, reclassifyNode csrExampleEdges (5, ⟨"TWY_intersection", none⟩) = some q ∧
      q.2.node_type = "SR_intersection") ∧
    (∃ q, reclassifyNode csrExampleEdges (8, ⟨"Ramp", none⟩) = some q ∧
      q = (8, ⟨"Ramp", none⟩)) := by
  obtain ⟨q7, hq7⟩ : ∃ q,
      reclassifyNode csrExampleEdges (7, ⟨"TWY_intersection", none⟩) = some q :=
    ⟨_, by with_unfolding_all rfl⟩
  obtain ⟨q5, hq5⟩ : ∃ q,
      reclassifyNode csrExampleEdges (5, ⟨"TWY_intersection", none⟩) = some q :=
    ⟨_, by with_unfolding_all rfl⟩
  obtain ⟨q8, hq8⟩ : ∃ q,
      reclassifyNode csrExampleEdges (8, ⟨"Ramp", none⟩) = some q :=
    ⟨_, by with_unfolding_all rfl⟩
  have h7 := (reclassify_nodes_spec csrExampleEdges).2 _ _ hq7
  have h5 := (reclassify_nodes_spec csrExampleEdges).2 _ _ hq5
  have h8 := (reclassify_nodes_spec csrExampleEdges).2 _ _ hq8
  refine ⟨⟨q7, hq7, h7.2.2.1 rfl (by decide)⟩, ⟨q5, hq5, h5.2.2.2 rfl ?_⟩,
    ⟨q8, hq8, h8.2.1 (by decide)⟩⟩
  intro e he
  have hlist : edgesFromNode (List.map Prod.fst csrExampleEdges)
      ((5 : ℕ), (⟨"TWY_intersection", none⟩ : RNode)).1 = [((some 5 : Option ℕ), some 6)] := by
    decide
  rw [hlist] at he
  have he2 : e = ((some 5 : Option ℕ), some 6) := by
    simpa using he
  subst he2
  exact ⟨⟨(0, 0), "CenterServiceRoad"⟩, by with_unfolding_all decide, rfl⟩

/-! ### Edge importer (`Layout.import_edges`, lines 395-685)

Each `edge_` path element is processed into a forward and a mirror record.
The per-segment geometry products (types, lengths, headings of the forward
and of the reversed path, curvature radii) are computed from the parsed
path by `svgpathtools`; the embedding carries them as data of the element,
since the importer only copies resp. reverses these lists when it builds
the two records (lines 604-671).  `math.inf` values (maxspan, radii) are
`⊤` in `WithTop`. -/

/-- A boundary reference of a path element (`bound1` / `bound2`): an
intersection-node reference, a termination-node reference, or anything else
(an open endpoint resolved to Python `None`). -/
inductive BoundRef where
  | inter : ℕ → BoundRef
  | term : ℕ → BoundRef
  | openEnd : BoundRef
deriving DecidableEq

/-- Resolution of a boundary reference to a node id (lines 409-429):
termination indices are offset by the intersection count. -/
def resolveBound (countI : ℕ) : BoundRef → Option ℕ
  | .inter n => some n
  | .term n => some (n + countI)
  | .openEnd => none

/-- The sort sentinel used in `edge_ids4sort` (lines 412-429): `-1` for an
open endpoint, the node id otherwise. -/
def boundSortKey (b : Option ℕ) : ℤ :=
  match b with
  | none => -1
  | some n => n

/-- One record of the edge registry (lines 605-626 / 650-671; the parsed
path object, the mean radius, the velocity limit and the cost factor are
not carried). -/
structure EdgeRec where
  edge_type : String
  edge_name : Option String
  svg_id : String
  svg_name : String
  edge_svg_inverse : Bool
  length : ℚ
  heading : ℚ × ℚ
  slope : ℚ
  maxspan : WithTop ℕ
  seg_types : List String
  seg_lengths : List ℚ
  seg_headings : List (ℚ × ℚ)
  seg_r_mins : List (WithTop ℚ)
  seg_r_maxs : List (WithTop ℚ)
  seg_r_meds : List (WithTop ℚ)
  seg_r_mids : List (WithTop ℚ)
deriving DecidableEq

/-- One `edge_` path element with its attributes and the geometry computed
from its path description. -/
structure PathElem where
  svg_id : String
  bound1 : BoundRef
  bound2 : BoundRef
  svgNameAttr : Option String
  typeAttr : String
  pathLength : ℚ
  slope : ℚ
  seg_types : List String
  seg_lengths : List ℚ
  seg_headings : List (ℚ × ℚ)
  seg_headings_rev : List (ℚ × ℚ)
  seg_r_mins : List (WithTop ℚ)
  seg_r_maxs : List (WithTop ℚ)
  seg_r_meds : List (WithTop ℚ)
  seg_r_mids : List (WithTop ℚ)
deriving DecidableEq

/-- The loop-carried decode values `svg_name` / `edge_type` / `edge_name`:
Python binds them only when the `edgeNameFromXPlane` attribute is present,
so a later element without the attribute silently reuses the previous
element's values (and the very first such element raises `NameError`). -/
structure DecodeVals where
  svg_name : String
  edge_type : String
  edge_name : Option String
deriving DecidableEq

/-- The scratch registries filled while decoding edge names: the
entry-bucket dict, the pushback and pull pools, and the remote-holding
access sets (`self._svgEdges_*`, `self.remhold_dict[..]['edge_ids_access']`). -/
structure ScratchState where
  entriesDict : List (String × List String)
  pushbackDict : List (String × List (String × List EdgeKey))
  pullDict : List (String × List (String × List EdgeKey))
  remholdAccess : List (ℕ × List EdgeKey)

/-- The state built by `import_edges`. -/
structure EdgesState where
  dict : List (EdgeKey × EdgeRec)
  ids4sort : List (ℤ × ℤ)
  svgMap : List (String × EdgeKey)
  scratch : ScratchState
  prevDecode : Option DecodeVals

/-- Python `s[i:]` on the character list. -/
def strDropChars (s : String) (i : ℕ) : List Char := s.toList.drop i

/-- Python `s.split(c)[0]` for a one-character separator. -/
def charsTokenBefore (c : Char) (l : List Char) : String :=
  ⟨l.takeWhile (fun x => x ≠ c)⟩

/-- The `maxspan` extraction (lines 443-446): parse the integer that
follows the first `maxspan` marker and strip `_maxspan_<n>` from the name;
a non-integer token is a `ValueError`. -/
def extractMaxspan (svg_name : String) : Option (String × WithTop ℕ) :=
  if strContains svg_name "maxspan" then
    match strFind svg_name "maxspan" with
    | none => none
    | some i =>
      match String.toNat? (charsTokenBefore '_' (strDropChars svg_name (i + 8))) with
      | none => none
      | some m =>
        some (svg_name.replace ("_maxspan_" ++ toString m) "", (m : WithTop ℕ))
  else some (svg_name, ⊤)

/-- The fresh per-category table created for a newly seen gate
(lines 498-499 / 518-519). -/
def initCatTable : List (String × List EdgeKey) :=
  [("Standard", []), ("ICAO-A", []), ("ICAO-B", []), ("ICAO-C", []),
   ("ICAO-D", []), ("ICAO-E", []), ("ICAO-F", [])]

/-- `table[sType].extend([edge_id, edge_id_rev])`. -/
def catExtend (table : List (String × List EdgeKey)) (sType : String)
    (k kr : EdgeKey) : List (String × List EdgeKey) :=
  table.map (fun p => if p.1 = sType then (p.1, p.2 ++ [k, kr]) else p)

/-- Registration of an `entry_exit` edge with each named remote holding
point (lines 466-471): the edge key and its mirror join the access set; an
unknown name or a non-remote-holding node is a `KeyError`. -/
def registerEntryExit (name2node : List (String × ℕ)) (k kr : EdgeKey) :
    List String → List (ℕ × List EdgeKey) → Option (List (ℕ × List EdgeKey))
  | [], access => some access
  | hp :: rest, access =>
    match alookup name2node hp with
    | none => none
    | some hpNode =>
      match alookup access hpNode with
      | none => none
      | some l =>
        registerEntryExit name2node k kr rest
          (dictInsert access hpNode (setInsert (setInsert l k) kr))

/-- One dash-separated pushback/pull variant (lines 481-520).  A variant
containing `TWY` is skipped; a push variant reads its gates from the token
before the first underscore, a pull variant from the token after it (a
missing token is an `IndexError`); a `pb@` / `pull@` marker other than
`pb@d` / `pull@d` leaves the category variable unassigned, decoded here as
an error. -/
def processVariant (k kr : EdgeKey)
    (pools : List (String × List (String × List EdgeKey)) ×
      List (String × List (String × List EdgeKey))) (v : String) :
    Option (List (String × List (String × List EdgeKey)) ×
      List (String × List (String × List EdgeKey))) :=
  if strContains v "TWY" then some pools
  else if strContains v.toLower "pull" = false then
    let parts := v.splitOn "_"
    match (if strContains v.toLower "pb@" = false then some "Standard"
           else if strContains v.toLower "pb@d" then some "ICAO-D"
           else none) with
    | none => none
    | some sType =>
      let gates := (parts.headD "").splitOn "&"
      some (gates.foldl (fun acc gate =>
        dictInsert acc gate (catExtend ((alookup acc gate).getD initCatTable) sType k kr))
        pools.1, pools.2)
  else
    let parts := v.splitOn "_"
    match (if strContains v.toLower "pull@" = false then some "Standard"
           else if strContains v.toLower "pull@d" then some "ICAO-D"
           else none) with
    | none => none
    | some sType =>
      match parts.get? 1 with
      | none => none
      | some gatesTok =>
        let gates := gatesTok.splitOn "&"
        some (pools.1, gates.foldl (fun acc gate =>
          dictInsert acc gate (catExtend ((alookup acc gate).getD initCatTable) sType k kr))
          pools.2)

/-- The loop over the dash-separated variants of a pushback/pull name. -/
def processVariants (k kr : EdgeKey) :
    List String →
    List (String × List (String × List EdgeKey)) ×
      List (String × List (String × List EdgeKey)) →
    Option (List (String × List (String × List EdgeKey)) ×
      List (String × List (String × List EdgeKey)))
  | [], pools => some pools
  | v :: rest, pools =>
    match processVariant k kr pools v with
    | none => none
    | some pools2 => processVariants k kr rest pools2

/-- The name-decode of one path element (lines 439-533): strip the maxspan
marker, check the type attribute, then classify the name into role and name
and register the entry-exit, pushback/pull and entry buckets, in source
order.  An element without the `edgeNameFromXPlane` attribute reuses the
loop-carried previous values. -/
def decodeName (name2node : List (String × ℕ)) (prev : Option DecodeVals)
    (sc : ScratchState) (e : PathElem) (k kr : EdgeKey) :
    Option (DecodeVals × WithTop ℕ × ScratchState) :=
  match e.svgNameAttr with
  | none =>
    match prev with
    | none => none
    | some dv => some (dv, ⊤, sc)
  | some svg_name0 =>
    match extractMaxspan svg_name0 with
    | none => none
    | some (svg_name, maxspan) =>
      if e.typeAttr = "runway" ∨ e.typeAttr = "taxiway" ∨ e.typeAttr = "service" then
        if (strContains svg_name "TUD" || decide (e.typeAttr = "service")) &&
            !(strContains svg_name "Linear Feature") then
          let lower := svg_name.toLower
          let edge_name0 : Option String :=
            if strContains svg_name "TUD" then some ((svg_name.splitOn "_TUD").headD "")
            else none
          let tn1 : String × Option String :=
            if strContains lower "serviceroad" then ("ServiceRoad", none)
            else ("TWY_edge", edge_name0)
          let tn2 : String × Option String :=
            if strContains lower "center_serviceroad" then ("CenterServiceRoad", none)
            else if strContains lower "stand" then
              ("Stand", some ((svg_name.splitOn "_").headD ""))
            else tn1
          match (if strContains lower "entry_exit" then
                   registerEntryExit name2node k kr
                     (((svg_name.splitOn "_").headD "").splitOn "&") sc.remholdAccess
                 else some sc.remholdAccess) with
          | none => none
          | some access1 =>
            let pbCond : Bool :=
              (match strFind lower "pb" with
               | some i => decide (0 < i)
               | none => false) || strContains lower "pull"
            let tn3 : String × Option String :=
              if pbCond && !(strContains svg_name "TWY") then
                ("PB/PUSH-PULL_placeholder", none)
              else tn2
            match (if pbCond then
                     processVariants k kr
                       (((svg_name.splitOn "_TUD").headD "").splitOn "-")
                       (sc.pushbackDict, sc.pullDict)
                   else some (sc.pushbackDict, sc.pullDict)) with
            | none => none
            | some pools2 =>
              let tn4 : String × Option String :=
                if strContains lower "entry" then ("entry_placeholder", none) else tn3
              let entries2 : List (String × List String) :=
                if strContains lower "entry" then
                  let key := (svg_name.splitOn "_").headD ""
                  match alookup sc.entriesDict key with
                  | some l => dictInsert sc.entriesDict key (l ++ [e.svg_id])
                  | none => dictInsert sc.entriesDict key [e.svg_id]
                else sc.entriesDict
              some (⟨svg_name, tn4.1, tn4.2⟩, maxspan,
                { entriesDict := entries2, pushbackDict := pools2.1,
                  pullDict := pools2.2, remholdAccess := access1 })
        else
          some (⟨svg_name, "TWY_edge", none⟩, maxspan, sc)
      else none

/-- `edge_heading = (seg_headings[0][0], seg_headings[-1][-1])`; an empty
segment list is an `IndexError`. -/
def headingEnds (l : List (ℚ × ℚ)) : Option (ℚ × ℚ) :=
  match l.head?, l.getLast? with
  | some h, some t => some (h.1, t.2)
  | _, _ => none

/-- Processing of one `edge_` path element (lines 406-674): resolve the
bounds, reject a duplicate directed key with a warning (state unchanged),
record the svg-id mapping, decode the name, then insert the forward record
and the mirror record (reversed per-segment lists, heading frame of the
reversed path, negated slope) and append the two sort keys. -/
def edgesStep (countI : ℕ) (name2node : List (String × ℕ)) (st : EdgesState)
    (e : PathElem) : Option EdgesState :=
  let ns := resolveBound countI e.bound1
  let ne := resolveBound countI e.bound2
  let k : EdgeKey := (ns, ne)
  let kr : EdgeKey := (ne, ns)
  if (alookup st.dict k).isSome then some st
  else
    match decodeName name2node st.prevDecode st.scratch e k kr with
    | none => none
    | some (dv, maxspan, sc2) =>
      match headingEnds e.seg_headings, headingEnds e.seg_headings_rev with
      | some hFwd, some hRev =>
        let fwd : EdgeRec :=
          { edge_type := dv.edge_type, edge_name := dv.edge_name,
            svg_id := e.svg_id, svg_name := dv.svg_name, edge_svg_inverse := false,
            length := e.pathLength, heading := hFwd, slope := e.slope,
            maxspan := maxspan, seg_types := e.seg_types,
            seg_lengths := e.seg_lengths, seg_headings := e.seg_headings,
            seg_r_mins := e.seg_r_mins, seg_r_maxs := e.seg_r_maxs,
            seg_r_meds := e.seg_r_meds, seg_r_mids := e.seg_r_mids }
        let rev : EdgeRec :=
          { edge_type := dv.edge_type, edge_name := dv.edge_name,
            svg_id := e.svg_id, svg_name := dv.svg_name, edge_svg_inverse := true,
            length := e.pathLength, heading := hRev, slope := -e.slope,
            maxspan := maxspan, seg_types := e.seg_types.reverse,
            seg_lengths := e.seg_lengths.reverse, seg_headings := e.seg_headings_rev,
            seg_r_mins := e.seg_r_mins.reverse, seg_r_maxs := e.seg_r_maxs.reverse,
            seg_r_meds := e.seg_r_meds.reverse, seg_r_mids := e.seg_r_mids.reverse }
        some { dict := dictInsert (dictInsert st.dict k fwd) kr rev,
               ids4sort := st.ids4sort ++
                 [(boundSortKey ns, boundSortKey ne), (boundSortKey ne, boundSortKey ns)],
               svgMap := st.svgMap ++ [(e.svg_id, k)],
               scratch := sc2,
               prevDecode := some dv }
      | _, _ => none

/-- The importer loop over all `edge_` path elements. -/
def runEdges (countI : ℕ) (name2node : List (String × ℕ)) :
    EdgesState → List PathElem → Option EdgesState
  | st, [] => some st
  | st, e :: rest =>
    match edgesStep countI name2node st e with
    | none => none
    | some st2 => runEdges countI name2node st2 rest

/-- The initial importer state: empty registries; the remote-holding access
sets come from `import_nodes`. -/
def initEdgesState (remhold : List (ℕ × List EdgeKey)) : EdgesState :=
  { dict := [], ids4sort := [], svgMap := [],
    scratch := { entriesDict := [], pushbackDict := [], pullDict := [],
                 remholdAccess := remhold },
    prevDecode := none }

/-- The geometric mirror relation between the two records of one physical
segment: shared length, role and name; per-segment lists in reversed order;
negated slope. -/
def mirrorRel (a b : EdgeRec) : Prop :=
  b.length = a.length ∧ b.edge_type = a.edge_type ∧ b.edge_name = a.edge_name ∧
  b.seg_types = a.seg_types.reverse ∧ b.seg_lengths = a.seg_lengths.reverse ∧
  b.seg_r_mins = a.seg_r_mins.reverse ∧ b.seg_r_maxs = a.seg_r_maxs.reverse ∧
  b.seg_r_meds = a.seg_r_meds.reverse ∧ b.seg_r_mids = a.seg_r_mids.reverse ∧
  b.slope = -a.slope

/-- The mirror-pair invariant of the unsorted edge registry. -/
def MirrorInv (d : List (EdgeKey × EdgeRec)) : Prop :=
  ∀ u v rec, alookup d ((u, v) : EdgeKey) = some rec → u ≠ v →
    ∃ m, alookup d ((v, u) : EdgeKey) = some m ∧ mirrorRel rec m

lemma mirrorInv_insert (d : List (EdgeKey × EdgeRec)) (hinv : MirrorInv d)
    (ns ne : Option ℕ) (fwd rev : EdgeRec)
    (hfr : mirrorRel fwd rev) (hrf : mirrorRel rev fwd) :
    MirrorInv (dictInsert (dictInsert d ((ns, ne) : EdgeKey) fwd) ((ne, ns) : EdgeKey) rev) := by
  intro u v rec hlook hne
  rw [alookup_dictInsert, alookup_dictInsert] at hlook
  by_cases huv_kr : ((u, v) : EdgeKey) = (ne, ns)
  · rw [if_pos huv_kr] at hlook
    have hrec : rec = rev := (Option.some_inj.mp hlook).symm
    have hu : u = ne := congrArg Prod.fst huv_kr
    have hv : v = ns := congrArg Prod.snd huv_kr
    have hnsne : ns ≠ ne := by
      intro hEq
      exact hne (by rw [hu, hv, hEq])
    refine ⟨fwd, ?_, hrec ▸ hrf⟩
    rw [alookup_dictInsert, alookup_dictInsert]
    rw [if_neg, if_pos (by rw [hu, hv])]
    rw [hu, hv]
    intro hEq
    exact hnsne (congrArg Prod.fst hEq)
  · rw [if_neg huv_kr] at hlook
    by_cases huv_k : ((u, v) : EdgeKey) = (ns, ne)
    · rw [if_pos huv_k] at hlook
      have hrec : rec = fwd := (Option.some_inj.mp hlook).symm
      have hu : u = ns := congrArg Prod.fst huv_k
      have hv : v = ne := congrArg Prod.snd huv_k
      refine ⟨rev, ?_, hrec ▸ hfr⟩
      rw [alookup_dictInsert, if_pos (by rw [hu, hv])]
    · rw [if_neg huv_k] at hlook
      have hvu_kr : ((v, u) : EdgeKey) ≠ (ne, ns) := by
        intro hEq
        exact huv_k (Prod.ext (congrArg Prod.snd hEq) (congrArg Prod.fst hEq))
      have hvu_k : ((v, u) : EdgeKey) ≠ (ns, ne) := by
        intro hEq
        exact huv_kr (Prod.ext (congrArg Prod.snd hEq) (congrArg Prod.fst hEq))
      obtain ⟨m, hm, hmr⟩ := hinv u v rec hlook hne
      refine ⟨m, ?_, hmr⟩
      rw [alookup_dictInsert, alookup_dictInsert, if_neg hvu_kr, if_neg hvu_k]
      exact hm

lemma edgesStep_mirror (countI : ℕ) (n2n : List (String × ℕ))
    (st st2 : EdgesState) (e : PathElem)
    (h : edgesStep countI n2n st e = some st2) (hinv : MirrorInv st.dict) :
    MirrorInv st2.dict := by
  simp only [edgesStep] at h
  by_cases hdup : (alookup st.dict
      (resolveBound countI e.bound1, resolveBound countI e.bound2)).isSome
  · rw [if_pos hdup] at h
    rw [← Option.some_inj.mp h]
    exact hinv
  · rw [if_neg hdup] at h
    cases hdec : decodeName n2n st.prevDecode st.scratch e
        (resolveBound countI e.bound1, resolveBound countI e.bound2)
        (resolveBound countI e.bound2, resolveBound countI e.bound1) with
    | none => rw [hdec] at h; exact absurd h (by simp)
    | some trip =>
      obtain ⟨dv, maxspan, sc2⟩ := trip
      rw [hdec] at h
      cases hh1 : headingEnds e.seg_headings with
      | none => rw [hh1] at h; exact absurd h (by simp)
      | some hFwd =>
        cases hh2 : headingEnds e.seg_headings_rev with
        | none => rw [hh1, hh2] at h; exact absurd h (by simp)
        | some hRev =>
          rw [hh1, hh2] at h
          simp only at h
          rw [← Option.some_inj.mp h]
          refine mirrorInv_insert st.dict hinv _ _ _ _ ?_ ?_
          · exact ⟨rfl, rfl, rfl, rfl, rfl, rfl, rfl, rfl, rfl, rfl⟩
          · exact ⟨rfl, rfl, rfl, (List.reverse_reverse _).symm,
              (List.reverse_reverse _).symm, (List.reverse_reverse _).symm,
              (List.reverse_reverse _).symm, (List.reverse_reverse _).symm,
              (List.reverse_reverse _).symm, (neg_neg _).symm⟩

/-- Preservation of a state predicate along the importer loop, for elements
satisfying a per-element precondition. -/
lemma runEdges_preserve (P : EdgesState → Prop) (Q : PathElem → Prop)
    (countI : ℕ) (n2n : List (String × ℕ))
    (hstep : ∀ st e st2, Q e → edgesStep countI n2n st e = some st2 → P st → P st2) :
    ∀ (elems : List PathElem) (st st2 : EdgesState), (∀ e ∈ elems, Q e) →
      runEdges countI n2n st elems = some st2 → P st → P st2 := by
  intro elems
  induction elems with
  | nil =>
    intro st st2 _ h hp
    simp only [runEdges] at h
    rw [← Option.some_inj.mp h]
    exact hp
  | cons e rest ih =>
    intro st st2 hq h hp
    simp only [runEdges] at h
    cases hstep1 : edgesStep countI n2n st e with
    | none => rw [hstep1] at h; exact absurd h (by simp)
    | some st1 =>
      rw [hstep1] at h
      exact ih st1 st2 (fun x hx => hq x (List.mem_cons_of_mem _ hx)) h
        (hstep st e st1 (hq e (List.mem_cons_self _ _)) hstep1 hp)

/-- C1, amended.  For every edge record with directed key `(u,v)`, `u ≠ v`,
in the registry built by the edge importer, the mirror record with key
`(v,u)` also exists, shares length, role and name, and has the per-segment
lists reversed and the slope negated.  (For a self-loop `u = v` — a path
element whose two bounds resolve to the same node — the reverse insert
overwrites the forward one, so the single stored record is the reversed one
and the mirror relation to itself fails for a nonzero slope; see the
counterexample.) -/
theorem import_edges_mirror_amended (countI : ℕ) (n2n : List (String × ℕ))
    (remhold : List (ℕ × List EdgeKey)) (elems : List PathElem) (st : EdgesState)
    (hrun : runEdges countI n2n (initEdgesState remhold) elems = some st)
    (u v : Option ℕ) (rec : EdgeRec)
    (hlook : alookup st.dict ((u, v) : EdgeKey) = some rec) (hne : u ≠ v) :
    ∃ m, alookup st.dict ((v, u) : EdgeKey) = some m ∧ mirrorRel rec m := by
  have hinv : MirrorInv st.dict := by
    refine runEdges_preserve (fun s => MirrorInv s.dict) (fun _ => True) countI n2n
      ?_ elems (initEdgesState remhold) st (fun _ _ => trivial) hrun ?_
    · intro st0 e st2 _ hstep hp
      exact edgesStep_mirror countI n2n st0 st2 e hstep hp
    · intro a b r hr _
      simp [initEdgesState, alookup] at hr
  exact hinv u v rec hlook hne

/-- The self-loop path element of the C1 counterexample: both bounds resolve
to node 5, nonzero slope, non-palindromic segment lists. -/
def loopElem : PathElem :=
  { svg_id := "edge_9", bound1 := .inter 5, bound2 := .inter 5,
    svgNameAttr := some "A_TUD", typeAttr := "taxiway",
    pathLength := 10, slope := 1,
    seg_types := ["L", "C"], seg_lengths := [4, 6],
    seg_headings := [(0, 0), (10, 20)], seg_headings_rev := [(200, 190), (180, 180)],
    seg_r_mins := [⊤, ((50 : ℚ) : WithTop ℚ)], seg_r_maxs := [⊤, ((60 : ℚ) : WithTop ℚ)],
    seg_r_meds := [⊤, ((55 : ℚ) : WithTop ℚ)], seg_r_mids := [⊤, ((54 : ℚ) : WithTop ℚ)] }

/-- The single record stored for the self-loop key `(5,5)`: the reverse
record, which overwrote the forward one. -/
def loopRec : EdgeRec :=
  { edge_type := "TWY_edge", edge_name := some "A", svg_id := "edge_9",
    svg_name := "A_TUD", edge_svg_inverse := true, length := 10,
    heading := (200, 180), slope := -1, maxspan := ⊤,
    seg_types := ["C", "L"], seg_lengths := [6, 4],
    seg_headings := [(200, 190), (180, 180)],
    seg_r_mins := [((50 : ℚ) : WithTop ℚ), ⊤], seg_r_maxs := [((60 : ℚ) : WithTop ℚ), ⊤],
    seg_r_meds := [((55 : ℚ) : WithTop ℚ), ⊤], seg_r_mids := [((54 : ℚ) : WithTop ℚ), ⊤] }

/-- C1, counterexample.  A self-loop element (both bounds node 5, slope 1)
produces a registry whose record at key `(5,5)` is its own mirror key, but
the stored record (the reverse record, which overwrote the forward one)
does not satisfy the mirror relation against itself: its slope would have to
be its own negation. -/
theorem import_edges_mirror_cex :
    ∃ st, runEdges 0 [] (initEdgesState []) [loopElem] = some st ∧
      alookup st.dict ((some 5 : Option ℕ), some 5) = some loopRec ∧
      ¬ ∃ m, alookup st.dict ((some 5 : Option ℕ), some 5) = some m ∧
        mirrorRel loopRec m := by
  obtain ⟨st, hst, hrec⟩ :
      ∃ st, runEdges 0 [] (initEdgesState []) [loopElem] = some st ∧
        alookup st.dict ((some 5 : Option ℕ), some 5) = some loopRec :=
    ⟨_, by with_unfolding_all rfl, by with_unfolding_all rfl⟩
  refine ⟨st, hst, hrec, ?_⟩
  rintro ⟨m, hm, hmr⟩
  have hmrec : m = loopRec := by
    rw [hrec] at hm
    exact (Option.some_inj.mp hm).symm
  subst hmrec
  have hs := hmr.2.2.2.2.2.2.2.2.2
  revert hs
  with_unfolding_all decide

/-- An ordinary path element from node 0 to an open end, used as witness
input. -/
def plainElem : PathElem :=
  { svg_id := "edge_1", bound1 := .inter 0, bound2 := .openEnd,
    svgNameAttr := some "B_TUD", typeAttr := "taxiway",
    pathLength := 7, slope := 2,
    seg_types := ["L"], seg_lengths := [7],
    seg_headings := [(30, 30)], seg_headings_rev := [(210, 210)],
    seg_r_mins := [⊤], seg_r_maxs := [⊤], seg_r_meds := [⊤], seg_r_mids := [⊤] }

/-- C1 witness: the amended theorem at the concrete one-element import whose
key is `(0, open)` — the mirror `(open, 0)` exists and satisfies the mirror
relation. -/
theorem import_edges_mirror_witness :
    ∃ st rec, runEdges 0 [] (initEdgesState []) [plainElem] = some st ∧
      alookup st.dict ((some 0 : Option ℕ), none) = some rec ∧
      ∃ m, alookup st.dict ((none : Option ℕ), some 0) = some m ∧ mirrorRel rec m := by
  obtain ⟨st, rec, hst, hrec⟩ :
      ∃ st rec, runEdges 0 [] (initEdgesState []) [plainElem] = some st ∧
        alookup st.dict ((some 0 : Option ℕ), none) = some rec :=
    ⟨_, _, by with_unfolding_all rfl, by with_unfolding_all rfl⟩
  exact ⟨st, rec, hst, hrec,
    import_edges_mirror_amended 0 [] [] [plainElem] st hst (some 0) none rec hrec
      (by decide)⟩

/-- C7.  A path element whose directed key is already present in the
registry being built is skipped entirely: the importer returns the state
unchanged — the first occurrence's records are kept, and the dropped
element contributes no forward key, no mirror key, no svg-id mapping, no
sort keys and no pushback/pull/entry/remote-holding scratch entries. -/
theorem duplicate_edge_skipped (countI : ℕ) (n2n : List (String × ℕ))
    (st : EdgesState) (e : PathElem)
    (hdup : (alookup st.dict
      (resolveBound countI e.bound1, resolveBound countI e.bound2)).isSome = true) :
    edgesStep countI n2n st e = some st := by
  simp only [edgesStep]
  rw [if_pos hdup]

/-- A minimal record for the duplicate-skip witness state. -/
def dummyRec : EdgeRec :=
  { edge_type := "TWY_edge", edge_name := none, svg_id := "edge_1",
    svg_name := "B_TUD", edge_svg_inverse := false, length := 3,
    heading := (0, 0), slope := 0, maxspan := ⊤,
    seg_types := ["L"], seg_lengths := [3], seg_headings := [(0, 0)],
    seg_r_mins := [⊤], seg_r_maxs := [⊤], seg_r_meds := [⊤], seg_r_mids := [⊤] }

/-- A state already holding the key `(1,2)`. -/
def dupExampleState : EdgesState :=
  { dict := [(((some 1 : Option ℕ), (some 2 : Option ℕ)), dummyRec)],
    ids4sort := [(1, 2), (2, 1)], svgMap := [("edge_1", (some 1, some 2))],
    scratch := { entriesDict := [], pushbackDict := [], pullDict := [],
                 remholdAccess := [] },
    prevDecode := none }

/-- A second element with the same directed key `(1,2)`. -/
def dupElem : PathElem :=
  { svg_id := "edge_2", bound1 := .inter 1, bound2 := .inter 2,
    svgNameAttr := some "C_TUD", typeAttr := "taxiway",
    pathLength := 4, slope := 1,
    seg_types := ["L"], seg_lengths := [4],
    seg_headings := [(90, 90)], seg_headings_rev := [(270, 270)],
    seg_r_mins := [⊤], seg_r_maxs := [⊤], seg_r_meds := [⊤], seg_r_mids := [⊤] }

/-- C7 witness: processing the duplicate element leaves the concrete state
unchanged. -/
theorem duplicate_edge_skipped_witness :
    edgesStep 0 [] dupExampleState dupElem = some dupExampleState :=
  duplicate_edge_skipped 0 [] dupExampleState dupElem (by with_unfolding_all rfl)

/-! ### Final sort-and-rebuild of the edge registry (lines 672-685)

`edge_ids4sort.sort()` sorts the sentinel pairs lexicographically; the
rebuild maps each `-1` sentinel back to the open-endpoint marker — only in
the first slot, or else (`elif`) in the second — and rebuilds the dict by
key lookup. -/

/-- Lexicographic comparison of sentinel pairs (Python list comparison). -/
def keyLE (a b : ℤ × ℤ) : Bool :=
  decide (a.1 < b.1) || (decide (a.1 = b.1) && decide (a.2 ≤ b.2))

/-- Insertion into a sorted list. -/
def insertSorted (x : ℤ × ℤ) : List (ℤ × ℤ) → List (ℤ × ℤ)
  | [] => [x]
  | y :: rest => if keyLE x y then x :: y :: rest else y :: insertSorted x rest

/-- `edge_ids4sort.sort()` as an insertion sort. -/
def sortIds : List (ℤ × ℤ) → List (ℤ × ℤ)
  | [] => []
  | x :: rest => insertSorted x (sortIds rest)

/-- The sentinel-to-key decoding of the rebuild loop (lines 680-684): `-1`
in the first slot becomes the open marker, else `-1` in the second slot
does; a pair that is `(-1, -1)` yields the key `(None, -1)`, which can
never be a registry key, so it is decoded as a failure (`KeyError` at the
rebuild lookup). -/
def decodeSortKey (p : ℤ × ℤ) : Option EdgeKey :=
  if p.1 = -1 then (if p.2 = -1 then none else some (none, some p.2.toNat))
  else if p.2 = -1 then some (some p.1.toNat, none)
  else some (some p.1.toNat, some p.2.toNat)

/-- The sentinel pair of a directed key. -/
def encKey (k : EdgeKey) : ℤ × ℤ := (boundSortKey k.1, boundSortKey k.2)

/-- The dict-comprehension rebuild `{tuple(k): unsorted[tuple(k)] for k in
edge_ids4sort}` over the decoded sorted keys. -/
def rebuildAux (dict : List (EdgeKey × EdgeRec)) :
    List (ℤ × ℤ) → List (EdgeKey × EdgeRec) → Option (List (EdgeKey × EdgeRec))
  | [], acc => some acc
  | p :: rest, acc =>
    match decodeSortKey p with
    | none => none
    | some key =>
      match alookup dict key with
      | none => none
      | some v => rebuildAux dict rest (dictInsert acc key v)

/-- The final sorted registry `self.edges_dict`. -/
def rebuildSorted (st : EdgesState) : Option (List (EdgeKey × EdgeRec)) :=
  rebuildAux st.dict (sortIds st.ids4sort) []

lemma mem_insertSorted {x a : ℤ × ℤ} :
    ∀ {l : List (ℤ × ℤ)}, a ∈ insertSorted x l ↔ (a = x ∨ a ∈ l) := by
  intro l
  induction l with
  | nil => simp [insertSorted]
  | cons y rest ih =>
    by_cases hle : keyLE x y
    · simp [insertSorted, hle]
    · simp only [insertSorted, if_neg hle, List.mem_cons, ih]
      tauto

lemma mem_sortIds {a : ℤ × ℤ} :
    ∀ {l : List (ℤ × ℤ)}, a ∈ sortIds l ↔ a ∈ l := by
  intro l
  induction l with
  | nil => simp [sortIds]
  | cons x rest ih => simp [sortIds, mem_insertSorted, ih]

lemma decode_encKey (k : EdgeKey) (hv : k.1 ≠ none ∨ k.2 ≠ none) :
    decodeSortKey (encKey k) = some k := by
  obtain ⟨a, b⟩ := k
  cases a with
  | none =>
    cases b with
    | none => simp at hv
    | some n =>
      have hne : ((n : ℤ)) ≠ -1 := by omega
      simp [decodeSortKey, encKey, boundSortKey, hne]
  | some n =>
    have hne : ((n : ℤ)) ≠ -1 := by omega
    cases b with
    | none =>
      simp [decodeSortKey, encKey, boundSortKey, hne]
    | some m =>
      have hne2 : ((m : ℤ)) ≠ -1 := by omega
      simp [decodeSortKey, encKey, boundSortKey, hne, hne2]

/-- The correspondence between the sort-key list and the registry keys. -/
def SortIdsInv (st : EdgesState) : Prop :=
  (∀ p ∈ st.ids4sort, ∃ k : EdgeKey, (alookup st.dict k).isSome ∧ p = encKey k) ∧
  (∀ k : EdgeKey, (alookup st.dict k).isSome → encKey k ∈ st.ids4sort)

/-- All registry keys have at most one open endpoint. -/
def ValidKeysInv (st : EdgesState) : Prop :=
  ∀ k : EdgeKey, (alookup st.dict k).isSome → (k.1 ≠ none ∨ k.2 ≠ none)

lemma edgesStep_sortIds (countI : ℕ) (n2n : List (String × ℕ))
    (st st2 : EdgesState) (e : PathElem)
    (hq : resolveBound countI e.bound1 ≠ none ∨ resolveBound countI e.bound2 ≠ none)
    (h : edgesStep countI n2n st e = some st2)
    (hp : SortIdsInv st ∧ ValidKeysInv st) :
    SortIdsInv st2 ∧ ValidKeysInv st2 := by
  simp only [edgesStep] at h
  by_cases hdup : (alookup st.dict
      (resolveBound countI e.bound1, resolveBound countI e.bound2)).isSome
  · rw [if_pos hdup] at h
    rw [← Option.some_inj.mp h]
    exact hp
  · rw [if_neg hdup] at h
    cases hdec : decodeName n2n st.prevDecode st.scratch e
        (resolveBound countI e.bound1, resolveBound countI e.bound2)
        (resolveBound countI e.bound2, resolveBound countI e.bound1) with
    | none => rw [hdec] at h; exact absurd h (by simp)
    | some trip =>
      obtain ⟨dv, maxspan, sc2⟩ := trip
      rw [hdec] at h
      cases hh1 : headingEnds e.seg_headings with
      | none => rw [hh1] at h; exact absurd h (by simp)
      | some hFwd =>
        cases hh2 : headingEnds e.seg_headings_rev with
        | none => rw [hh1, hh2] at h; exact absurd h (by simp)
        | some hRev =>
          rw [hh1, hh2] at h
          simp only at h
          obtain ⟨⟨hI1, hI2⟩, hV⟩ := hp
          rw [← Option.some_inj.mp h]
          constructor
          · constructor
            · intro p hpmem
              simp only [List.mem_append, List.mem_cons, List.not_mem_nil, or_false] at hpmem
              rcases hpmem with hold | hnew | hnew
              · obtain ⟨k0, hk0, rfl⟩ := hI1 p hold
                refine ⟨k0, ?_, rfl⟩
                rw [alookup_dictInsert, alookup_dictInsert]
                by_cases h1 : k0 = (resolveBound countI e.bound2, resolveBound countI e.bound1)
                · rw [if_pos h1]; rfl
                · rw [if_neg h1]
                  by_cases h2 : k0 = (resolveBound countI e.bound1, resolveBound countI e.bound2)
                  · rw [if_pos h2]; rfl
                  · rw [if_neg h2]; exact hk0
              · refine ⟨(resolveBound countI e.bound1, resolveBound countI e.bound2),
                  ?_, by rw [hnew]; rfl⟩
                rw [alookup_dictInsert, alookup_dictInsert]
                by_cases h1 : ((resolveBound countI e.bound1, resolveBound countI e.bound2) :
                    EdgeKey) = (resolveBound countI e.bound2, resolveBound countI e.bound1)
                · rw [if_pos h1]; rfl
                · rw [if_neg h1, if_pos rfl]; rfl
              · refine ⟨(resolveBound countI e.bound2, resolveBound countI e.bound1),
                  ?_, by rw [hnew]; rfl⟩
                rw [alookup_dictInsert, if_pos rfl]
                rfl
            · intro k hk
              rw [alookup_dictInsert, alookup_dictInsert] at hk
              by_cases h1 : k = ((resolveBound countI e.bound2, resolveBound countI e.bound1) :
                  EdgeKey)
              · subst h1
                simp [List.mem_append, encKey]
              · rw [if_neg h1] at hk
                by_cases h2 : k = ((resolveBound countI e.bound1, resolveBound countI e.bound2) :
                    EdgeKey)
                · subst h2
                  simp [List.mem_append, encKey]
                · rw [if_neg h2] at hk
                  simp only [List.mem_append]
                  exact Or.inl (hI2 k hk)
          · intro k hk
            rw [alookup_dictInsert, alookup_dictInsert] at hk
            by_cases h1 : k = ((resolveBound countI e.bound2, resolveBound countI e.bound1) :
                EdgeKey)
            · subst h1
              simpa using hq.symm
            · rw [if_neg h1] at hk
              by_cases h2 : k = ((resolveBound countI e.bound1, resolveBound countI e.bound2) :
                  EdgeKey)
              · subst h2
                simpa using hq
              · rw [if_neg h2] at hk
                exact hV k hk

lemma rebuildAux_some (dict : List (EdgeKey × EdgeRec)) :
    ∀ (l : List (ℤ × ℤ)) (acc : List (EdgeKey × EdgeRec)),
      (∀ p ∈ l, ∃ k, decodeSortKey p = some k ∧ (alookup dict k).isSome) →
      ∃ d, rebuildAux dict l acc = some d := by
  intro l
  induction l with
  | nil => intro acc _; exact ⟨acc, rfl⟩
  | cons p rest ih =>
    intro acc hall
    obtain ⟨k, hdec, hsome⟩ := hall p (List.mem_cons_self _ _)
    obtain ⟨v, hv⟩ := Option.isSome_iff_exists.mp hsome
    simp only [rebuildAux, hdec, hv]
    exact ih (dictInsert acc k v) (fun q hq => hall q (List.mem_cons_of_mem _ hq))

lemma rebuildAux_sub (dict : List (EdgeKey × EdgeRec)) :
    ∀ (l : List (ℤ × ℤ)) (acc d : List (EdgeKey × EdgeRec)),
      rebuildAux dict l acc = some d →
      (∀ x v, alookup acc x = some v → alookup dict x = some v) →
      ∀ x v, alookup d x = some v → alookup dict x = some v := by
  intro l
  induction l with
  | nil =>
    intro acc d h hacc
    simp only [rebuildAux] at h
    rw [← Option.some_inj.mp h]
    exact hacc
  | cons p rest ih =>
    intro acc d h hacc
    cases hdec : decodeSortKey p with
    | none => simp only [rebuildAux, hdec] at h; exact absurd h (by simp)
    | some key =>
      cases hkv : alookup dict key with
      | none => simp only [rebuildAux, hdec, hkv] at h; exact absurd h (by simp)
      | some v =>
        simp only [rebuildAux, hdec, hkv] at h
        refine ih (dictInsert acc key v) d h ?_
        intro x w hx
        rw [alookup_dictInsert] at hx
        by_cases hxk : x = key
        · rw [if_pos hxk] at hx
          rw [hxk, ← Option.some_inj.mp hx]
          exact hkv
        · rw [if_neg hxk] at hx
          exact hacc x w hx

lemma rebuildAux_mono (dict : List (EdgeKey × EdgeRec)) :
    ∀ (l : List (ℤ × ℤ)) (acc d : List (EdgeKey × EdgeRec)) (x : EdgeKey),
      rebuildAux dict l acc = some d →
      (alookup acc x).isSome → (alookup d x).isSome := by
  intro l
  induction l with
  | nil =>
    intro acc d x h hx
    simp only [rebuildAux] at h
    rw [← Option.some_inj.mp h]
    exact hx
  | cons p rest ih =>
    intro acc d x h hx
    cases hdec : decodeSortKey p with
    | none => simp only [rebuildAux, hdec] at h; exact absurd h (by simp)
    | some key =>
      cases hkv : alookup dict key with
      | none => simp only [rebuildAux, hdec, hkv] at h; exact absurd h (by simp)
      | some v =>
        simp only [rebuildAux, hdec, hkv] at h
        refine ih (dictInsert acc key v) d x h ?_
        rw [alookup_dictInsert]
        by_cases hxk : x = key
        · rw [if_pos hxk]; rfl
        · rw [if_neg hxk]; exact hx

lemma rebuildAux_covers (dict : List (EdgeKey × EdgeRec)) :
    ∀ (l : List (ℤ × ℤ)) (acc d : List (EdgeKey × EdgeRec)),
      rebuildAux dict l acc = some d →
      ∀ p ∈ l, ∀ k, decodeSortKey p = some k → (alookup d k).isSome := by
  intro l
  induction l with
  | nil => intro acc d _ p hp; simp at hp
  | cons q rest ih =>
    intro acc d h p hp k hk
    cases hdec : decodeSortKey q with
    | none => simp only [rebuildAux, hdec] at h; exact absurd h (by simp)
    | some key =>
      cases hkv : alookup dict key with
      | none => simp only [rebuildAux, hdec, hkv] at h; exact absurd h (by simp)
      | some v =>
        simp only [rebuildAux, hdec, hkv] at h
        rcases List.mem_cons.mp hp with rfl | hrest
        · have hkey : k = key := by
            rw [hdec] at hk
            exact (Option.some_inj.mp hk).symm
          subst hkey
          refine rebuildAux_mono dict rest (dictInsert acc k v) d k h ?_
          rw [alookup_dictInsert, if_pos rfl]
          rfl
        · exact ih (dictInsert acc key v) d h p hrest k hk

/-- C10.  Under the precondition that every path element resolves at least
one of its two bounds, the final sort-and-rebuild is total: every sort
sentinel decodes back to a key created during import, every rebuild lookup
succeeds, and the rebuilt sorted registry contains exactly the same
key-to-record pairs as the unsorted one. -/
theorem import_edges_sort_rebuild (countI : ℕ) (n2n : List (String × ℕ))
    (remhold : List (ℕ × List EdgeKey)) (elems : List PathElem) (st : EdgesState)
    (hpre : ∀ e ∈ elems,
      resolveBound countI e.bound1 ≠ none ∨ resolveBound countI e.bound2 ≠ none)
    (hrun : runEdges countI n2n (initEdgesState remhold) elems = some st) :
    ∃ d, rebuildSorted st = some d ∧ ∀ x : EdgeKey, alookup d x = alookup st.dict x := by
  have hinv : SortIdsInv st ∧ ValidKeysInv st := by
    refine runEdges_preserve (fun s => SortIdsInv s ∧ ValidKeysInv s)
      (fun e => resolveBound countI e.bound1 ≠ none ∨ resolveBound countI e.bound2 ≠ none)
      countI n2n ?_ elems (initEdgesState remhold) st hpre hrun ?_
    · intro st0 e st2 hqe hstep hp
      exact edgesStep_sortIds countI n2n st0 st2 e hqe hstep hp
    · refine ⟨⟨?_, ?_⟩, ?_⟩
      · intro p hp
        simp [initEdgesState] at hp
      · intro k hk
        simp [initEdgesState, alookup] at hk
      · intro k hk
        simp [initEdgesState, alookup] at hk
  obtain ⟨⟨hI1, hI2⟩, hV⟩ := hinv
  have hall : ∀ p ∈ sortIds st.ids4sort,
      ∃ k, decodeSortKey p = some k ∧ (alookup st.dict k).isSome := by
    intro p hp
    obtain ⟨k, hk, rfl⟩ := hI1 p (mem_sortIds.mp hp)
    exact ⟨k, decode_encKey k (hV k hk), hk⟩
  obtain ⟨d, hd⟩ := rebuildAux_some st.dict (sortIds st.ids4sort) [] hall
  refine ⟨d, hd, ?_⟩
  intro x
  cases hx : alookup st.dict x with
  | some v =>
    have hxs : (alookup st.dict x).isSome := by rw [hx]; rfl
    have hxm : encKey x ∈ sortIds st.ids4sort := mem_sortIds.mpr (hI2 x hxs)
    have hcov := rebuildAux_covers st.dict (sortIds st.ids4sort) [] d hd
      (encKey x) hxm x (decode_encKey x (hV x hxs))
    obtain ⟨w, hw⟩ := Option.isSome_iff_exists.mp hcov
    have hsub := rebuildAux_sub st.dict (sortIds st.ids4sort) [] d hd
      (by intro a b hab; simp [alookup] at hab) x w hw
    rw [hx] at hsub
    rw [hw]
    exact congrArg some (Option.some_inj.mp hsub).symm
  | none =>
    cases hdx : alookup d x with
    | none => rfl
    | some w =>
      have hsub := rebuildAux_sub st.dict (sortIds st.ids4sort) [] d hd
        (by intro a b hab; simp [alookup] at hab) x w hdx
      rw [hx] at hsub
      exact absurd hsub (by simp)

/-- C10 witness: the theorem at a one-element import whose element has an
open second bound. -/
theorem import_edges_sort_rebuild_witness :
    ∃ st, runEdges 0 [] (initEdgesState []) [plainElem] = some st ∧
      ∃ d, rebuildSorted st = some d ∧
        ∀ x : EdgeKey, alookup d x = alookup st.dict x := by
  obtain ⟨st, hst⟩ : ∃ st, runEdges 0 [] (initEdgesState []) [plainElem] = some st :=
    ⟨_, by with_unfolding_all rfl⟩
  refine ⟨st, hst, ?_⟩
  refine import_edges_sort_rebuild 0 [] [] [plainElem] st ?_ hst
  intro e he
  rw [List.mem_singleton] at he
  subst he
  exact Or.inl (by decide)

/-! ### Runway topology builder (`Layout.create_runway_data`, lines 843-1033)

The builder walks each runway direction from its threshold, discovers exit
stopbars, and classifies the remaining configured stopbars through the
crossing and go-around seed edges.  The direction headings (computed at
lines 874-882 from the threshold positions) and the special seed-edge maps
(gathered at lines 847-870 from edge names) are consumed as inputs. -/

/-- The edge attributes read by the runway topology builder. -/
structure REdge where
  edge_name : Option String
  length : ℚ
  seg_headings : List (ℚ × ℚ)
  next_edges : List EdgeKey
deriving DecidableEq

/-- The runway builder's edge registry. -/
abbrev EdgeMap := List (EdgeKey × REdge)

/-- The runway builder's node registry. -/
abbrev NodeMap := List (ℕ × RNode)

/-- `np.allclose(seg_headings, heading, rtol=0, atol=1)`: every start and
end heading of every segment within 1° of the direction heading. -/
def allcloseB (l : List (ℚ × ℚ)) (h : ℚ) : Bool :=
  l.all (fun p => decide (|p.1 - h| ≤ 1) && decide (|p.2 - h| ≤ 1))

/-- `round(x, 1)`. -/
def qround1 (x : ℚ) : ℚ := (⌊x * 10 + 1/2⌋ : ℚ) / 10

/-- One recorded runway exit (line 948). -/
structure ExitInfo where
  rwy_length : ℚ
  RET : Bool
  stopbar_nodeIDs : List ℕ
  stopbar_names : List (Option String)

/-- One recorded entry of the reverse direction (line 951). -/
structure EntryInfo where
  rwy_length : ℚ
  stopbar_nodeIDs : List ℕ
  stopbar_names : List (Option String)

/-- The mutable state of one direction walk: the node registry (runway
nodes are relabelled in place), the strip-wide `stopbars_io` accumulator,
the per-direction exit/entry dicts and `stopbars_exits` sets, and the
ordered node/edge sequences with the accumulated length. -/
structure DirSt where
  nodes : NodeMap
  io : Finset ℕ
  exits : List (EdgeKey × ExitInfo)
  entriesRev : List (EdgeKey × EntryInfo)
  exitNodeIds : Finset ℕ
  exitEdgeIds : Finset EdgeKey
  rwy_nodes : List (Option ℕ)
  rwy_edges : List EdgeKey
  rwy_length : ℚ

/-- The local accumulators of one exit search. -/
structure ExitScan where
  st : DirSt
  exit_path : List EdgeKey
  sb_nodes : List ℕ
  sb_names : List (Option String)
  is_RET : Bool

/-- One step of the `for temp_edge in temp_edges:` scan (lines 925-936):
an edge ending at a `Stopbar` node is recorded in the exit-local lists, the
per-direction sets and the strip-wide `stopbars_io`; a missing or open end
node is a `KeyError`. -/
def exitScanStep (ret : List ℕ) (acc : ExitScan) (t : EdgeKey) : Option ExitScan :=
  match t.2 with
  | none => none
  | some n =>
    match alookup acc.st.nodes n with
    | none => none
    | some nd =>
      if nd.node_type = "Stopbar" then
        let path2 := acc.exit_path ++ [t]
        some { st := { acc.st with
                 io := insert n acc.st.io,
                 exitNodeIds := insert n acc.st.exitNodeIds,
                 exitEdgeIds := acc.st.exitEdgeIds ∪ path2.toFinset },
               exit_path := path2,
               sb_nodes := acc.sb_nodes ++ [n],
               sb_names := acc.sb_names ++ [nd.node_name],
               is_RET := decide (n ∈ ret) }
      else some acc

/-- The scan over the current frontier. -/
def exitScanList (ret : List ℕ) : List EdgeKey → ExitScan → Option ExitScan
  | [], acc => some acc
  | t :: rest, acc =>
    match exitScanStep ret acc t with
    | none => none
    | some acc2 => exitScanList ret rest acc2

/-- The `while not stopbar_nodeIDs:` search (lines 924-941), with fuel: scan
the frontier; a single-edge frontier is appended to the exit path and
advanced to its continuations (also right after a find — the loop then
exits); any other frontier size breaks the search. -/
def exitLoop (edges : EdgeMap) (ret : List ℕ) :
    ℕ → List EdgeKey → ExitScan → Option ExitScan
  | 0, _, _ => none
  | fuel + 1, temp, acc =>
    match exitScanList ret temp acc with
    | none => none
    | some acc2 =>
      match temp with
      | [t] =>
        match alookup edges t with
        | none => none
        | some er =>
          let acc3 := { acc2 with exit_path := acc2.exit_path ++ [t] }
          if acc3.sb_nodes = [] then exitLoop edges ret fuel er.next_edges acc3
          else some acc3
      | _ => some acc2

/-- The body of the `for edge_id in next_edges:` scan of the runway walk
(lines 909-951): a heading-matching edge extends the runway and relabels
its end node to `RWY_intersection`; any other edge seeds an exit search
whose discovered stopbars become an exit of this direction and an entry of
the reverse one (none found: warning, nothing recorded). -/
def walkScanEdge (edges : EdgeMap) (ret : List ℕ) (heading : ℚ) (dirName : String)
    (fuel : ℕ) (acc : DirSt × Option EdgeKey) (eid : EdgeKey) :
    Option (DirSt × Option EdgeKey) :=
  match alookup edges eid with
  | none => none
  | some er =>
    if allcloseB er.seg_headings heading then
      match eid.2 with
      | none => none
      | some n =>
        match alookup acc.1.nodes n with
        | none => none
        | some nd =>
          some ({ acc.1 with
                   nodes := dictInsert acc.1.nodes n
                     { nd with node_type := "RWY_intersection", node_name := some dirName },
                   rwy_nodes := acc.1.rwy_nodes ++ [some n],
                   rwy_edges := acc.1.rwy_edges ++ [eid] }, some eid)
    else
      match exitLoop edges ret fuel [eid]
          { st := acc.1, exit_path := [], sb_nodes := [], sb_names := [],
            is_RET := false } with
      | none => none
      | some scan =>
        if scan.sb_nodes = [] then some (scan.st, acc.2)
        else
          some ({ scan.st with
                   exits := dictInsert scan.st.exits eid
                     { rwy_length := qround1 scan.st.rwy_length, RET := scan.is_RET,
                       stopbar_nodeIDs := scan.sb_nodes, stopbar_names := scan.sb_names },
                   entriesRev := dictInsert scan.st.entriesRev (eid.2, eid.1)
                     { rwy_length := qround1 scan.st.rwy_length,
                       stopbar_nodeIDs := scan.sb_nodes, stopbar_names := scan.sb_names } },
                acc.2)

/-- The scan over all continuations of the current runway edge; the last
heading-matching one becomes the next `edge_now`. -/
def walkScanList (edges : EdgeMap) (ret : List ℕ) (heading : ℚ) (dirName : String)
    (fuel : ℕ) : List EdgeKey → DirSt × Option EdgeKey → Option (DirSt × Option EdgeKey)
  | [], acc => some acc
  | eid :: rest, acc =>
    match walkScanEdge edges ret heading dirName fuel acc eid with
    | none => none
    | some acc2 => walkScanList edges ret heading dirName fuel rest acc2

/-- The `while edge_now:` loop of the runway walk (lines 905-951),
with fuel. -/
def walkLoop (edges : EdgeMap) (ret : List ℕ) (heading : ℚ) (dirName : String) :
    ℕ → DirSt → EdgeKey → Option DirSt
  | 0, _, _ => none
  | fuel + 1, st, edge_now =>
    match alookup edges edge_now with
    | none => none
    | some er =>
      match walkScanList edges ret heading dirName fuel er.next_edges
          ({ st with rwy_length := st.rwy_length + er.length }, none) with
      | none => none
      | some (st2, none) => some st2
      | some (st2, some e2) => walkLoop edges ret heading dirName fuel st2 e2

/-- One runway-direction walk (lines 890-951): the threshold node must
resolve and have exactly one outgoing edge (fatal otherwise); the walk then
follows heading-matching continuations. -/
def dirWalk (edges : EdgeMap) (ret : List ℕ) (heading : ℚ) (dirName : String)
    (fuel : ℕ) (nodes : NodeMap) (startNode : Option ℕ) (io0 : Finset ℕ) :
    Option DirSt :=
  match startNode with
  | none => none
  | some start =>
    match edgesFromNode (edges.map Prod.fst) start with
    | [e0] =>
      walkLoop edges ret heading dirName fuel
        { nodes := nodes, io := io0, exits := [], entriesRev := [],
          exitNodeIds := ∅, exitEdgeIds := ∅,
          rwy_nodes := [some start, e0.2], rwy_edges := [e0], rwy_length := 0 }
        e0
    | _ => none

/-- The stopbar-collecting worklist search of the crossing / go-around
classification (lines 979-988 and the two analogous blocks), with fuel: pop
an edge, add it and its reverse to the edge set; a non-`Stopbar` end node
pushes the edge's continuations, a `Stopbar` end joins the node set. -/
def bfsLoop (edges : EdgeMap) (nodes : NodeMap) :
    ℕ → List EdgeKey → Finset ℕ → Finset EdgeKey → Option (Finset ℕ × Finset EdgeKey)
  | 0, worklist, nids, eids => if worklist = [] then some (nids, eids) else none
  | _ + 1, [], nids, eids => some (nids, eids)
  | fuel + 1, e :: rest, nids, eids =>
    let eids2 := insert e (insert ((e.2, e.1) : EdgeKey) eids)
    match e.2 with
    | none => none
    | some n =>
      match alookup nodes n with
      | none => none
      | some nd =>
        if nd.node_type ≠ "Stopbar" then
          match alookup edges e with
          | none => none
          | some er => bfsLoop edges nodes fuel (rest ++ er.next_edges) nids eids2
        else bfsLoop edges nodes fuel rest (insert n nids) eids2

/-- The per-seed loop: each seed edge starts a worklist from its
continuations, accumulating into the shared sets. -/
def bfsSeeds (edges : EdgeMap) (nodes : NodeMap) (fuel : ℕ) :
    List EdgeKey → Finset ℕ → Finset EdgeKey → Option (Finset ℕ × Finset EdgeKey)
  | [], nids, eids => some (nids, eids)
  | seed :: rest, nids, eids =>
    match alookup edges seed with
    | none => none
    | some er =>
      match bfsLoop edges nodes fuel er.next_edges nids eids with
      | none => none
      | some (nids2, eids2) => bfsSeeds edges nodes fuel rest nids2 eids2

/-- The classification of one seed family (crossing for the strip, or
go-around-ahead for one direction label): no seeds registered means empty
sets, otherwise the worklist search from all seeds, the edge set being
seeded with the special edges themselves. -/
def classifySeeds (edges : EdgeMap) (nodes : NodeMap) (fuel : ℕ)
    (special : List (String × List EdgeKey)) (key : String) :
    Option (Finset ℕ × Finset EdgeKey) :=
  match alookup special key with
  | none => some (∅, ∅)
  | some seeds => bfsSeeds edges nodes fuel seeds ∅ seeds.toFinset

/-- The per-strip configuration: the two direction labels, the configured
stopbar set, the RET stopbars, the two threshold start nodes and the two
direction headings (lines 874-882; taken as inputs). -/
structure StripInfo where
  dir1 : String
  dir2 : String
  stopbars : Finset ℕ
  stopbars_RET : List ℕ
  start1 : Option ℕ
  start2 : Option ℕ
  heading1 : ℚ
  heading2 : ℚ

/-- The stopbar classification of one strip. -/
structure StripResult where
  io : Finset ℕ
  crossing : Finset ℕ
  ahead : Finset ℕ
  behind : Finset ℕ
  crossingEdges : Finset EdgeKey
  aheadEdges : Finset EdgeKey
  behindEdges : Finset EdgeKey

/-- One entry of the strip loop (lines 884-1033): walk both directions
(sharing `stopbars_io` and the relabelled nodes), then classify the
remaining configured stopbars through the crossing seeds of the strip and
the go-around seeds of each direction label; the edge sets are reduced by
the exit/entry edges as in lines 990-991, 1010 and 1029; a leftover
unclassified stopbar is the fatal `assert not stopbars_remaining`. -/
def processStrip (edges : EdgeMap)
    (specialCrossing specialAhead : List (String × List EdgeKey)) (fuel : ℕ)
    (stripName : String) (si : StripInfo) (nodes : NodeMap) :
    Option (StripResult × NodeMap) :=
  match dirWalk edges si.stopbars_RET si.heading1 si.dir1 fuel nodes si.start1 ∅ with
  | none => none
  | some w1 =>
    match dirWalk edges si.stopbars_RET si.heading2 si.dir2 fuel w1.nodes si.start2 w1.io with
    | none => none
    | some w2 =>
      let exitEids := w1.exitEdgeIds ∪ w2.exitEdgeIds
      let entryEids := w1.exitEdgeIds.image (fun e => ((e.2, e.1) : EdgeKey)) ∪
        w2.exitEdgeIds.image (fun e => ((e.2, e.1) : EdgeKey))
      match classifySeeds edges w2.nodes fuel specialCrossing stripName with
      | none => none
      | some (crossN, crossE) =>
        match classifySeeds edges w2.nodes fuel specialAhead si.dir1 with
        | none => none
        | some (aheadN, aheadE) =>
          match classifySeeds edges w2.nodes fuel specialAhead si.dir2 with
          | none => none
          | some (behindN, behindE) =>
            if (((si.stopbars \ w2.io) \ crossN) \ aheadN) \ behindN = ∅ then
              some ({ io := w2.io, crossing := crossN, ahead := aheadN,
                      behind := behindN,
                      crossingEdges := (crossE \ exitEids) \ entryEids,
                      aheadEdges := aheadE \ exitEids,
                      behindEdges := behindE \ exitEids }, w2.nodes)
            else none

/-- The strip loop of `create_runway_data`, threading the node relabels
from strip to strip. -/
def runwayTopology (edges : EdgeMap)
    (specialCrossing specialAhead : List (String × List EdgeKey)) (fuel : ℕ) :
    NodeMap → List (String × StripInfo) → Option (List StripResult)
  | _, [] => some []
  | nodes, (nm, si) :: rest =>
    match processStrip edges specialCrossing specialAhead fuel nm si nodes with
    | none => none
    | some (r, nodes2) =>
      match runwayTopology edges specialCrossing specialAhead fuel nodes2 rest with
      | none => none
      | some rs => some (r :: rs)

lemma processStrip_covers (edges : EdgeMap)
    (sc sa : List (String × List EdgeKey)) (fuel : ℕ) (nm : String)
    (si : StripInfo) (nodes : NodeMap) (r : StripResult) (nodes2 : NodeMap)
    (h : processStrip edges sc sa fuel nm si nodes = some (r, nodes2)) :
    si.stopbars ⊆ r.io ∪ r.crossing ∪ r.ahead ∪ r.behind := by
  simp only [processStrip] at h
  cases hw1 : dirWalk edges si.stopbars_RET si.heading1 si.dir1 fuel nodes si.start1 ∅ with
  | none => rw [hw1] at h; exact absurd h (by simp)
  | some w1 =>
    rw [hw1] at h
    simp only at h
    cases hw2 : dirWalk edges si.stopbars_RET si.heading2 si.dir2 fuel w1.nodes
        si.start2 w1.io with
    | none => rw [hw2] at h; exact absurd h (by simp)
    | some w2 =>
      rw [hw2] at h
      simp only at h
      cases hc : classifySeeds edges w2.nodes fuel sc nm with
      | none => rw [hc] at h; exact absurd h (by simp)
      | some pc =>
        obtain ⟨crossN, crossE⟩ := pc
        rw [hc] at h
        simp only at h
        cases ha : classifySeeds edges w2.nodes fuel sa si.dir1 with
        | none => rw [ha] at h; exact absurd h (by simp)
        | some pa =>
          obtain ⟨aheadN, aheadE⟩ := pa
          rw [ha] at h
          simp only at h
          cases hb : classifySeeds edges w2.nodes fuel sa si.dir2 with
          | none => rw [hb] at h; exact absurd h (by simp)
          | some pb =>
            obtain ⟨behindN, behindE⟩ := pb
            rw [hb] at h
            simp only at h
            by_cases hrem : (((si.stopbars \ w2.io) \ crossN) \ aheadN) \ behindN = ∅
            · rw [if_pos hrem] at h
              have hfst := congrArg Prod.fst (Option.some_inj.mp h)
              simp only at hfst
              rw [← hfst]
              intro x hx
              by_contra hnot
              simp only [Finset.mem_union, not_or] at hnot
              obtain ⟨⟨⟨h1, h2⟩, h3⟩, h4⟩ := hnot
              have hmem : x ∈ (((si.stopbars \ w2.io) \ crossN) \ aheadN) \ behindN := by
                simp only [Finset.mem_sdiff]
                exact ⟨⟨⟨⟨hx, h1⟩, h2⟩, h3⟩, h4⟩
              rw [hrem] at hmem
              exact absurd hmem (Finset.not_mem_empty x)
            · rw [if_neg hrem] at h
              exact absurd h (by simp)

/-- C5, amended.  When the runway topology builder finishes successfully,
every configured stopbar of every strip is classified: the union of the
exit/entry set, the crossing set, the go-around-ahead set and the
go-around-behind set covers the strip's full configured stopbar set (an
unclassified leftover aborts the construction).  The categories are,
however, not necessarily disjoint, and may contain stopbars beyond the
configured set — see the counterexample. -/
theorem runway_stopbar_classification (edges : EdgeMap)
    (sc sa : List (String × List EdgeKey)) (fuel : ℕ) (nodes : NodeMap)
    (strips : List (String × StripInfo)) (rs : List StripResult)
    (h : runwayTopology edges sc sa fuel nodes strips = some rs) :
    ∀ (i : ℕ) (h1 : i < strips.length) (h2 : i < rs.length),
      (strips.get ⟨i, h1⟩).2.stopbars ⊆
        (rs.get ⟨i, h2⟩).io ∪ (rs.get ⟨i, h2⟩).crossing ∪
          (rs.get ⟨i, h2⟩).ahead ∪ (rs.get ⟨i, h2⟩).behind := by
  induction strips generalizing nodes rs with
  | nil =>
    intro i h1
    exact absurd h1 (by simp)
  | cons p rest ih =>
    obtain ⟨nm, si⟩ := p
    simp only [runwayTopology] at h
    cases hp : processStrip edges sc sa fuel nm si nodes with
    | none => rw [hp] at h; exact absurd h (by simp)
    | some pr =>
      obtain ⟨r, nodes2⟩ := pr
      rw [hp] at h
      simp only at h
      cases hrest : runwayTopology edges sc sa fuel nodes2 rest with
      | none => rw [hrest] at h; exact absurd h (by simp)
      | some rs2 =>
        rw [hrest] at h
        simp only at h
        rw [← Option.some_inj.mp h]
        intro i h1 h2
        cases i with
        | zero =>
          exact processStrip_covers edges sc sa fuel nm si nodes r nodes2 hp
        | succ j =>
          exact ih nodes2 rs2 hrest j
            (by simp only [List.length_cons] at h1; omega)
            (by simp only [List.length_cons] at h2; omega)

/-- The node registry of the C5 scenario. -/
def rwNodes : NodeMap :=
  [(0, ⟨"TWY_intersection", none⟩), (1, ⟨"TWY_intersection", none⟩),
   (2, ⟨"TWY_intersection", none⟩), (3, ⟨"Stopbar", some "S1"⟩),
   (4, ⟨"TWY_intersection", none⟩), (5, ⟨"TWY_intersection", none⟩),
   (6, ⟨"TWY_intersection", none⟩)]

/-- The edge registry of the C5 scenario: the runway direction `18` runs
from node 0, with one exit `(2,3)` to the stopbar 3; the crossing edge
`(4,5)` (named `18/36_crossing`) continues to the same stopbar 3. -/
def rwEdges : EdgeMap :=
  [(((some 0 : Option ℕ), some 2), ⟨none, 10, [(0, 0)], [(some 2, some 3)]⟩),
   ((some 2, some 0), ⟨none, 10, [(180, 180)], []⟩),
   ((some 2, some 3), ⟨none, 5, [(90, 90)], []⟩),
   ((some 3, some 2), ⟨none, 5, [(270, 270)], [(some 2, some 0)]⟩),
   ((some 1, some 6), ⟨none, 7, [(180, 180)], []⟩),
   ((some 6, some 1), ⟨none, 7, [(0, 0)], []⟩),
   ((some 4, some 5), ⟨some "18/36_crossing", 3, [(0, 0)], [(some 5, some 3)]⟩),
   ((some 5, some 4), ⟨some "18/36_crossing", 3, [(180, 180)], []⟩),
   ((some 5, some 3), ⟨none, 2, [(45, 45)], []⟩),
   ((some 3, some 5), ⟨none, 2, [(225, 225)], []⟩)]

/-- The strip `18/36` of the C5 scenario: one configured stopbar (node 3),
thresholds at nodes 0 and 1, headings 0° and 180°. -/
def rwStrip : StripInfo :=
  { dir1 := "18", dir2 := "36", stopbars := {3}, stopbars_RET := [],
    start1 := some 0, start2 := some 1, heading1 := 0, heading2 := 180 }

/-- The crossing seeds gathered from the edge names of `rwEdges`. -/
def rwSpecialCrossing : List (String × List EdgeKey) :=
  [("18/36", [(some 4, some 5), (some 5, some 4)])]

/-- C5, counterexample.  On the scenario registry the builder succeeds (no
stopbar remains unclassified), yet stopbar 3 is recorded both as an
exit/entry stopbar (`stopbars_io`) and as a crossing stopbar: the
categories are not disjoint, refuting "no stopbar appearing in more than
one of these categories". -/
theorem runway_stopbar_overlap_cex :
    ∃ rs, runwayTopology rwEdges rwSpecialCrossing [] 5 rwNodes
        [("18/36", rwStrip)] = some rs ∧
      ∃ r ∈ rs, (3 : ℕ) ∈ r.io ∧ (3 : ℕ) ∈ r.crossing ∧ (3 : ℕ) ∈ rwStrip.stopbars := by
  refine ⟨_, by with_unfolding_all rfl, ?_⟩
  with_unfolding_all decide

/-- C5 witness: the amended theorem at the scenario input — the configured
stopbar set `{3}` is covered by the union of the four categories. -/
theorem runway_stopbar_classification_witness :
    ∃ rs, runwayTopology rwEdges rwSpecialCrossing [] 5 rwNodes
        [("18/36", rwStrip)] = some rs ∧
      ∃ (h2 : 0 < rs.length),
        rwStrip.stopbars ⊆
          (rs.get ⟨0, h2⟩).io ∪ (rs.get ⟨0, h2⟩).crossing ∪
            (rs.get ⟨0, h2⟩).ahead ∪ (rs.get ⟨0, h2⟩).behind := by
  obtain ⟨rs, hrs, hlen⟩ :
      ∃ rs, runwayTopology rwEdges rwSpecialCrossing [] 5 rwNodes
          [("18/36", rwStrip)] = some rs ∧ 0 < rs.length :=
    ⟨_, by with_unfolding_all rfl, by with_unfolding_all decide⟩
  exact ⟨rs, hrs, hlen,
    runway_stopbar_classification rwEdges rwSpecialCrossing [] 5 rwNodes
      [("18/36", rwStrip)] rs hrs 0 (by decide) hlen⟩

end ASOS
